import Mathlib

/-!
Verification of the esri-exporter backend core (src/backend/app.py).

The file embeds the two pure transformation functions of the repository:
`fix_malformed_json` (the Dequoter) and `generate_sql` (the SQL batch
emitter), together with the parts of the Python `json` module behaviour
they rely on.  Strings are modelled as `List Char`; Python's `json.loads`
is modelled by a recursive-descent parser over the integer fragment of
JSON (numbers are integers; objects are ordered key/value lists; strict
mode: raw control characters inside string literals are rejected), and
`json.dumps(·, indent=2, ensure_ascii=False)` by a pretty-printer.
`datetime.utcnow()` is modelled as an explicit date argument.
-/

/-- Characters treated as whitespace by Python `str.strip` (ASCII subset). -/
def isPyWs (c : Char) : Bool :=
  c = ' ' || c = '\t' || c = '\n' || c = '\r' || c = Char.ofNat 11 || c = Char.ofNat 12

/-- Python `text.strip()`: drop leading and trailing whitespace. -/
def pyStrip (l : List Char) : List Char :=
  ((l.dropWhile isPyWs).reverse.dropWhile isPyWs).reverse

/-- Python `text[1:-1]`: drop the first and the last character. -/
def pyMid (l : List Char) : List Char := (l.drop 1).dropLast

/-- Python `text.startswith(q) and text.endswith(q)` for the double-quote
character, as tested at line 43 of app.py. -/
def quoteDelimited (l : List Char) : Bool :=
  l.head? == some '"' && l.getLast? == some '"'

/-- Fueled worker for pyReplace; with fuel above the list length the zero
case is never reached. -/
def pyReplaceF (p : Char) (ps rep : List Char) : Nat → List Char → List Char
| 0, l => l
| _ + 1, [] => []
| f + 1, c :: r =>
  if (p :: ps).isPrefixOf (c :: r) then rep ++ pyReplaceF p ps rep f (r.drop ps.length)
  else c :: pyReplaceF p ps rep f r

/-- Python `text.replace(pat, rep)` for a non-empty pattern `p :: ps`:
left-to-right, non-overlapping replacement of every occurrence. -/
def pyReplace (p : Char) (ps rep : List Char) (l : List Char) : List Char :=
  pyReplaceF p ps rep (l.length + 1) l

/-- JSON values as handled by the Python json module, restricted to the
integer-number fragment; objects are ordered key/value lists (insertion
order, as Python dicts round-trip through dumps). -/
inductive Json where
| null : Json
| bool (b : Bool) : Json
| num (n : Int) : Json
| str (s : List Char) : Json
| arr (elems : List Json) : Json
| obj (fields : List (List Char × Json)) : Json

/-- Decimal digit character, for digits below 10. -/
def digitChar (d : Nat) : Char := Char.ofNat (48 + d)

/-- Fueled worker for natChars; with fuel above the number the zero case
is never reached. -/
def natCharsF : Nat → Nat → List Char
| 0, _ => []
| f + 1, n => if n < 10 then [digitChar n] else natCharsF f (n / 10) ++ [digitChar (n % 10)]

/-- Decimal representation of a natural number, as Python str(). -/
def natChars (n : Nat) : List Char := natCharsF (n + 1) n

/-- Python str() of an int. -/
def intChars (n : Int) : List Char :=
  if n < 0 then '-' :: natChars n.natAbs else natChars n.natAbs

/-- Lowercase hexadecimal digit character, for digits below 16. -/
def hexDigitChar (d : Nat) : Char :=
  if d < 10 then Char.ofNat (48 + d) else Char.ofNat (87 + d)

/-- Escape one character the way Python `json.dumps(·, ensure_ascii=False)`
does inside string literals. -/
def escChar (c : Char) : List Char :=
  if c = '"' then ['\\', '"']
  else if c = '\\' then ['\\', '\\']
  else if c = '\n' then ['\\', 'n']
  else if c = '\t' then ['\\', 't']
  else if c = '\r' then ['\\', 'r']
  else if c = Char.ofNat 8 then ['\\', 'b']
  else if c = Char.ofNat 12 then ['\\', 'f']
  else if c.toNat < 32 then
    ['\\', 'u', '0', '0', hexDigitChar (c.toNat / 16), hexDigitChar (c.toNat % 16)]
  else [c]

/-- Escape an entire string body. -/
def escStr (s : List Char) : List Char := (s.map escChar).flatten

/-- No raw control character below code point 32 occurs in the list. -/
def noCtrl (l : List Char) : Bool := l.all (fun c => decide (32 ≤ c.toNat))

mutual

/-- Compact JSON serialization of a value (a canonical valid rendering). -/
def serVal : Json → List Char
| .null => "null".data
| .bool true => "true".data
| .bool false => "false".data
| .num n => intChars n
| .str s => '"' :: escStr s ++ ['"']
| .arr [] => ['[', ']']
| .arr (x :: xs) => '[' :: serVal x ++ serRest xs ++ [']']
| .obj [] => [Char.ofNat 123, Char.ofNat 125]
| .obj (f :: fs) => Char.ofNat 123 :: serField f ++ serFRest fs ++ [Char.ofNat 125]

/-- Remaining array elements, each preceded by a comma. -/
def serRest : List Json → List Char
| [] => []
| x :: xs => ',' :: serVal x ++ serRest xs

/-- One serialized object field. -/
def serField : List Char × Json → List Char
| (k, v) => '"' :: escStr k ++ '"' :: ':' :: serVal v

/-- Remaining object fields, each preceded by a comma. -/
def serFRest : List (List Char × Json) → List Char
| [] => []
| f :: fs => ',' :: serField f ++ serFRest fs

end

/-- JSON whitespace skipped by the parser. -/
def isJsonWs (c : Char) : Bool := c = ' ' || c = '\t' || c = '\n' || c = '\r'

/-- Skip leading JSON whitespace. -/
def skipWs (l : List Char) : List Char := l.dropWhile isJsonWs

/-- Value of one hexadecimal digit character. -/
def hexVal (c : Char) : Option Nat :=
  if 48 ≤ c.toNat ∧ c.toNat ≤ 57 then some (c.toNat - 48)
  else if 97 ≤ c.toNat ∧ c.toNat ≤ 102 then some (c.toNat - 87)
  else if 65 ≤ c.toNat ∧ c.toNat ≤ 70 then some (c.toNat - 55)
  else none

mutual

/-- Parse the body of a JSON string literal, after the opening quote, up to
and including the closing quote; strict mode: raw control characters are
rejected, escapes are the JSON short escapes and \uXXXX. -/
def parseStrBody : List Char → Option (List Char × List Char)
| [] => none
| c :: r =>
  if c = '"' then some ([], r)
  else if c = '\\' then parseEsc r
  else if c.toNat < 32 then none
  else (parseStrBody r).map (fun p => (c :: p.1, p.2))

/-- Parse one escape sequence after the backslash, then the rest of the
string body. -/
def parseEsc : List Char → Option (List Char × List Char)
| [] => none
| e :: r =>
  if e = '"' then (parseStrBody r).map (fun p => ('"' :: p.1, p.2))
  else if e = '\\' then (parseStrBody r).map (fun p => ('\\' :: p.1, p.2))
  else if e = '/' then (parseStrBody r).map (fun p => ('/' :: p.1, p.2))
  else if e = 'n' then (parseStrBody r).map (fun p => ('\n' :: p.1, p.2))
  else if e = 't' then (parseStrBody r).map (fun p => ('\t' :: p.1, p.2))
  else if e = 'r' then (parseStrBody r).map (fun p => ('\r' :: p.1, p.2))
  else if e = 'b' then (parseStrBody r).map (fun p => (Char.ofNat 8 :: p.1, p.2))
  else if e = 'f' then (parseStrBody r).map (fun p => (Char.ofNat 12 :: p.1, p.2))
  else if e = 'u' then
    match r with
    | a :: b :: c2 :: d :: r2 =>
      match hexVal a, hexVal b, hexVal c2, hexVal d with
      | some x, some y, some z, some w =>
        (parseStrBody r2).map
          (fun p => (Char.ofNat (((x * 16 + y) * 16 + z) * 16 + w) :: p.1, p.2))
      | _, _, _, _ => none
    | _ => none
  else none

end

/-- Consume a run of decimal digits, accumulating their value. -/
def grabDigits (acc : Nat) : List Char → Nat × List Char
| [] => (acc, [])
| c :: r => if c.isDigit then grabDigits (acc * 10 + (c.toNat - 48)) r else (acc, c :: r)

/-- Check that a list does not begin with a decimal digit. -/
def headNotDigit (l : List Char) : Bool :=
  match l.head? with
  | some c => !c.isDigit
  | none => true

/-- Parse an unsigned JSON integer literal (leading zeros rejected, per the
JSON grammar enforced by Python json). -/
def parseUNum : List Char → Option (Nat × List Char)
| [] => none
| c :: r =>
  if c = '0' then (if headNotDigit r then some (0, r) else none)
  else if c.isDigit then some (grabDigits (c.toNat - 48) r) else none

/-- Parse an optionally signed JSON integer literal. -/
def parseNum (l : List Char) : Option (Int × List Char) :=
  if l.head? = some '-' then (parseUNum l.tail).map (fun p => (-(p.1 : Int), p.2))
  else (parseUNum l).map (fun p => ((p.1 : Int), p.2))

mutual

/-- Recursive-descent JSON value parser modelling Python json.loads; the
fuel argument bounds the recursion depth and is chosen large enough for
the whole input by `loads`. -/
def parseVal : Nat → List Char → Option (Json × List Char)
| 0, _ => none
| f + 1, s =>
  match skipWs s with
  | [] => none
  | c :: r =>
    if c = '"' then (parseStrBody r).map (fun p => (Json.str p.1, p.2))
    else if c = '[' then
      if (skipWs r).head? = some ']' then some (Json.arr [], (skipWs r).tail)
      else
        match parseVal f (skipWs r) with
        | some (v, r2) =>
          match parseItems f r2 with
          | some (l, r3) => some (Json.arr (v :: l), r3)
          | none => none
        | none => none
    else if c = Char.ofNat 123 then
      if (skipWs r).head? = some (Char.ofNat 125) then some (Json.obj [], (skipWs r).tail)
      else
        match parseOneField f (skipWs r) with
        | some (kv, r2) =>
          match parseFields f r2 with
          | some (l, r3) => some (Json.obj (kv :: l), r3)
          | none => none
        | none => none
    else if c = 'n' then
      match r with
      | 'u' :: 'l' :: 'l' :: r2 => some (Json.null, r2)
      | _ => none
    else if c = 't' then
      match r with
      | 'r' :: 'u' :: 'e' :: r2 => some (Json.bool true, r2)
      | _ => none
    else if c = 'f' then
      match r with
      | 'a' :: 'l' :: 's' :: 'e' :: r2 => some (Json.bool false, r2)
      | _ => none
    else if c.isDigit || c = '-' then
      (parseNum (c :: r)).map (fun p => (Json.num p.1, p.2))
    else none

/-- Parse the `, value … ]` continuation of a non-empty array. -/
def parseItems : Nat → List Char → Option (List Json × List Char)
| 0, _ => none
| f + 1, s =>
  match skipWs s with
  | [] => none
  | c :: r =>
    if c = ']' then some ([], r)
    else if c = ',' then
      match parseVal f r with
      | some (v, r2) =>
        match parseItems f r2 with
        | some (l, r3) => some (v :: l, r3)
        | none => none
      | none => none
    else none

/-- Parse one `"key": value` object field (the key must start right here). -/
def parseOneField : Nat → List Char → Option ((List Char × Json) × List Char)
| 0, _ => none
| f + 1, s =>
  match s with
  | '"' :: r =>
    match parseStrBody r with
    | some (k, r2) =>
      match skipWs r2 with
      | ':' :: r3 =>
        match parseVal f r3 with
        | some (v, r4) => some ((k, v), r4)
        | none => none
      | _ => none
    | none => none
  | _ => none

/-- Parse the `, "key": value … }` continuation of a non-empty object. -/
def parseFields : Nat → List Char → Option (List (List Char × Json) × List Char)
| 0, _ => none
| f + 1, s =>
  match skipWs s with
  | [] => none
  | c :: r =>
    if c = Char.ofNat 125 then some ([], r)
    else if c = ',' then
      match parseOneField f (skipWs r) with
      | some (kv, r2) =>
        match parseFields f r2 with
        | some (l, r3) => some (kv :: l, r3)
        | none => none
      | none => none
    else none

end

/-- Model of Python `json.loads`: parse one complete JSON document with
optional surrounding whitespace; the fuel bound length+1 suffices for any
parseable input. -/
def loads (l : List Char) : Option Json :=
  match parseVal (l.length + 1) l with
  | some (v, r) => if r.all isJsonWs then some v else none
  | none => none

/-- Indentation run of n spaces. -/
def nSpaces (n : Nat) : List Char := List.replicate n ' '

mutual

/-- Python `json.dumps(v, indent=2, ensure_ascii=False)` at indent depth d. -/
def dumpAux : Nat → Json → List Char
| _, .null => "null".data
| _, .bool true => "true".data
| _, .bool false => "false".data
| _, .num n => intChars n
| _, .str s => '"' :: escStr s ++ ['"']
| _, .arr [] => ['[', ']']
| d, .arr (x :: xs) =>
  '[' :: '\n' :: dumpItems (d + 1) (x :: xs) ++ '\n' :: nSpaces (2 * d) ++ [']']
| _, .obj [] => [Char.ofNat 123, Char.ofNat 125]
| d, .obj (f :: fs) =>
  Char.ofNat 123 :: '\n' :: dumpFields (d + 1) (f :: fs) ++ '\n' :: nSpaces (2 * d) ++
    [Char.ofNat 125]

/-- Array items, one per line at depth d, comma-separated. -/
def dumpItems : Nat → List Json → List Char
| _, [] => []
| d, [x] => nSpaces (2 * d) ++ dumpAux d x
| d, x :: y :: ys => nSpaces (2 * d) ++ dumpAux d x ++ ',' :: '\n' :: dumpItems d (y :: ys)

/-- Object fields, one per line at depth d, comma-separated. -/
def dumpFields : Nat → List (List Char × Json) → List Char
| _, [] => []
| d, [(k, v)] => nSpaces (2 * d) ++ '"' :: escStr k ++ '"' :: ':' :: ' ' :: dumpAux d v
| d, (k, v) :: g :: gs =>
  nSpaces (2 * d) ++ '"' :: escStr k ++ '"' :: ':' :: ' ' :: dumpAux d v ++
    ',' :: '\n' :: dumpFields d (g :: gs)

end

/-- Python `json.dumps(v, indent=2, ensure_ascii=False)`. -/
def dumps2 (v : Json) : List Char := dumpAux 0 v

/-- Error kinds raised by fix_malformed_json as ValueError: a JSON decode
failure ("Unable to parse JSON: …", line 78 of app.py) versus any other
internal failure ("Error processing JSON: …", line 80). -/
inductive FixError where
| decodeFailure : FixError
| processingFailure : FixError
deriving DecidableEq

/-- Python sequential unescape from line 45 of app.py:
`s.replace(backslash-quote, quote).replace(double-backslash, backslash)`. -/
def unescapeLayer (l : List Char) : List Char :=
  pyReplace '\\' ['\\'] ['\\'] (pyReplace '\\' ['"'] ['"'] l)

/-- One pass of the loop body's quote-stripping step (lines 43-45):
when the string starts and ends with a double quote, remove the outer
quotes and unescape one layer; otherwise leave the string unchanged. -/
def stripStep (l : List Char) : List Char :=
  if quoteDelimited l then unescapeLayer (pyMid l) else l

/-- The bounded unwrap-and-parse loop of fix_malformed_json (lines 41-72),
including the double-encoding second parse, the except-branch rescue parse
when the string was never modified, and the for/else final direct parse. -/
def fixLoop (orig : List Char) : Nat → List Char → Except FixError (List Char)
| 0, cur =>
  match loads cur with
  | some d => .ok (dumps2 d)
  | none => .error .decodeFailure
| k + 1, cur =>
  match loads (stripStep cur) with
  | some (Json.str s) =>
    match loads s with
    | some d => .ok (dumps2 d)
    | none =>
      if stripStep cur = orig then .ok (dumps2 (Json.str s))
      else fixLoop orig k (stripStep cur)
  | some d => .ok (dumps2 d)
  | none =>
    if stripStep cur = orig then .error .decodeFailure
    else fixLoop orig k (stripStep cur)

/-- Model of fix_malformed_json (lines 14-80 of app.py): strip the input,
run up to 5 unwrap-and-parse iterations, and pretty-print the decoded
value with 2-space indentation. -/
def fixMalformedJson (input : List Char) : Except FixError (List Char) :=
  fixLoop (pyStrip input) 5 (pyStrip input)

/-- One layer of quote-and-escape encoding, as described by the spec's
round-trip property: wrap the text in double quotes, escaping embedded
quotes and backslashes. -/
def escQB (l : List Char) : List Char :=
  (l.map (fun c => if c = '"' then ['\\', '"'] else if c = '\\' then ['\\', '\\'] else [c])).flatten

/-- Wrap a text in one quote-and-escape layer. -/
def wrapLayer (l : List Char) : List Char := '"' :: escQB l ++ ['"']

/-- Wrap a text in k quote-and-escape layers. -/
def wrapK : Nat → List Char → List Char
| 0, l => l
| k + 1, l => wrapLayer (wrapK k l)

/-- Python values occurring in WSDOT record fields: strings, ints, and
floats; a float is carried as its str() rendering paired with its
zero-ness (the part of the value Python truthiness tests observe). -/
inductive PVal where
| s (v : String) : PVal
| i (v : Int) : PVal
| f (txt : String) (isZero : Bool) : PVal
deriving DecidableEq

/-- Python str() of a record value. -/
def pyStr : PVal → String
| .s v => v
| .i v => (intChars v).asString
| .f t _ => t

/-- Python truthiness: `not value` holds exactly for these values. -/
def pyFalsy : PVal → Bool
| .s v => v = ""
| .i v => v = 0
| .f _ z => z

/-- A WSDOT record: an ordered mapping of field names to values. -/
def RecMap : Type := List (String × PVal)

/-- Python rec.get(key): the binding for the key, None when absent. -/
def getField (r : RecMap) (k : String) : Option PVal := List.lookup k r

/-- Python str.strip() at String type. -/
def pyStripStr (s : String) : String := (pyStrip s.data).asString

/-- Python text.replace over a single-quote pattern: double every
embedded single quote. -/
def doubleQuotes (s : String) : String := (pyReplace '\'' [] ['\'', '\''] s.data).asString

/-- sql_str (app.py lines 96-100): wrap in single quotes, doubling any
internal single quotes; NULL for None. -/
def sqlStr : Option PVal → String
| none => "NULL"
| some v => "'" ++ doubleQuotes (pyStr v) ++ "'"

/-- sql_num (lines 102-106): str(value), or NULL for None. -/
def sqlNum : Option PVal → String
| none => "NULL"
| some v => pyStr v

/-- map_region (lines 108-112): the bare-apostrophe placeholder (after
stripping whitespace) becomes NULL. -/
def mapRegion : Option PVal → String
| none => "NULL"
| some v => if pyStripStr (pyStr v) = "'" then "NULL" else sqlStr (some v)

/-- map_age_group (lines 114-118): empty or whitespace-only AgeGroup
becomes NULL. -/
def mapAgeGroup : Option PVal → String
| none => "NULL"
| some v => if pyStripStr (pyStr v) = "" then "NULL" else sqlStr (some v)

/-- Python text[:10]. -/
def pyTake10 (s : String) : String := (s.data.take 10).asString

/-- crash_date (lines 120-127): NULL for a falsy FullDate, else the first
10 characters of str(full_date), quoted; the try/except wraps only total
operations and is modelled away. -/
def crashDate : Option PVal → String
| none => "NULL"
| some v => if pyFalsy v then "NULL" else sqlStr (some (PVal.s (pyTake10 (pyStr v))))

/-- The geom expression built at line 132 of app.py. -/
def geomOf (rec : RecMap) : String :=
  "ST_SetSRID(ST_MakePoint(" ++ sqlNum (getField rec "Longitude") ++ ", " ++
    sqlNum (getField rec "Latitude") ++ "), 4326)"

/-- row_values (lines 129-150): one parenthesized VALUES row. -/
def rowValues (mode : String) (rec : RecMap) : String :=
  "  (" ++ sqlStr (getField rec "ColliRptNum") ++ ", " ++
    sqlStr (getField rec "Jurisdiction") ++ ", " ++
    "'Washington', " ++
    mapRegion (getField rec "RegionName") ++ ", " ++
    sqlStr (getField rec "CountyName") ++ ", " ++
    sqlStr (getField rec "CityName") ++ ", " ++
    sqlStr (getField rec "FullDate") ++ ", " ++
    crashDate (getField rec "FullDate") ++ ", " ++
    sqlStr (getField rec "FullTime") ++ ", " ++
    sqlStr (getField rec "MostSevereInjuryType") ++ ", " ++
    mapAgeGroup (getField rec "AgeGroup") ++ ", " ++
    sqlNum (getField rec "InvolvedPersons") ++ ", " ++
    sqlNum (getField rec "Latitude") ++ ", " ++
    sqlNum (getField rec "Longitude") ++ ", " ++
    sqlStr (some (PVal.s mode)) ++ ", " ++
    geomOf rec ++ ")"

/-- The fixed, double-quoted column list (lines 152-157). -/
def sqlColumns : String :=
  "  \"ColliRptNum\", \"Jurisdiction\", \"StateOrProvinceName\", \"RegionName\",\n" ++
  "  \"CountyName\", \"CityName\", \"FullDate\", \"CrashDate\", \"FullTime\",\n" ++
  "  \"MostSevereInjuryType\", \"AgeGroup\", \"InvolvedPersons\",\n" ++
  "  \"Latitude\", \"Longitude\", \"Mode\", \"geom\""

/-- Python sep.join(items). -/
def joinSep (sep : String) : List String → String
| [] => ""
| [x] => x
| x :: xs => x ++ sep ++ joinSep sep xs

/-- One batched INSERT statement (lines 172-176). -/
def mkStmt (mode : String) (batch : List RecMap) : String :=
  "INSERT INTO crashdata (\n" ++ sqlColumns ++ "\n) VALUES\n" ++
    joinSep ",\n" (batch.map (rowValues mode)) ++ "\n" ++
    "ON CONFLICT (\"ColliRptNum\") DO NOTHING;\n"

/-- The successive slices records[i : i+b] taken by the batching loop at
line 169 (batch_size 0 would make Python's range() raise and yields no
chunks here; the claims all assume a positive batch size). -/
def chunksOfF {α : Type} (b : Nat) : Nat → List α → List (List α)
| 0, _ => []
| _ + 1, [] => []
| f + 1, c :: r =>
  match b with
  | 0 => []
  | b' + 1 => (c :: r).take (b' + 1) :: chunksOfF (b' + 1) f (r.drop b')

/-- The record slices, with the fuel instantiated to the list length. -/
def chunksOf {α : Type} (b : Nat) (l : List α) : List (List α) :=
  chunksOfF b (l.length + 1) l

/-- The statements-and-separators tail of the script: the loop at lines
169-179 appends each batch statement, then a blank-line separator exactly
when another batch follows. -/
def sqlPartsF (mode : String) (b : Nat) : Nat → List RecMap → String
| 0, _ => ""
| _ + 1, [] => ""
| f + 1, c :: r =>
  match b with
  | 0 => ""
  | b' + 1 =>
    mkStmt mode ((c :: r).take (b' + 1)) ++
      (if b' + 1 < (c :: r).length then "\n" else "") ++
      sqlPartsF mode (b' + 1) f (r.drop b')

/-- The statements-and-separators tail, fuel instantiated to the length. -/
def sqlParts (mode : String) (b : Nat) (l : List RecMap) : String :=
  sqlPartsF mode b (l.length + 1) l

/-- The header comment block (lines 159-165); utcDate stands for the
datetime.utcnow().strftime value read when the call happens. -/
def genHeader (mode utcDate : String) (n : Nat) : String :=
  "-- CrashMap Data Import\n-- Mode: " ++ mode ++ "\n-- Generated: " ++ utcDate ++
    "\n-- Records: " ++ toString n ++ "\n\n"

/-- Model of generate_sql (lines 83-181 of app.py); the current UTC date
is an explicit argument because the Python function reads the clock. -/
def generateSql (utcDate : String) (records : List RecMap) (mode : String) (b : Nat) : String :=
  genHeader mode utcDate records.length ++ sqlParts mode b records

/-- Recognize JSON string values. -/
def jsonIsStr : Json → Bool
| .str _ => true
| _ => false

/-- Backslash-only escaping, the intermediate form reached after the first
replace of the unescape pass. -/
def escB (l : List Char) : List Char :=
  (l.map (fun c => if c = '\\' then ['\\', '\\'] else [c])).flatten

/-- Single quotes are properly doubled: every run of single quotes splits
into adjacent pairs. -/
def quotesPaired : List Char → Bool
| [] => true
| c :: r =>
  if c = '\'' then
    match r with
    | c2 :: r2 => if c2 = '\'' then quotesPaired r2 else false
    | [] => false
  else quotesPaired r

/-- Everything row_values emits before the geom expression. -/
def rowPrefix (mode : String) (rec : RecMap) : String :=
  "  (" ++ sqlStr (getField rec "ColliRptNum") ++ ", " ++
    sqlStr (getField rec "Jurisdiction") ++ ", " ++
    "'Washington', " ++
    mapRegion (getField rec "RegionName") ++ ", " ++
    sqlStr (getField rec "CountyName") ++ ", " ++
    sqlStr (getField rec "CityName") ++ ", " ++
    sqlStr (getField rec "FullDate") ++ ", " ++
    crashDate (getField rec "FullDate") ++ ", " ++
    sqlStr (getField rec "FullTime") ++ ", " ++
    sqlStr (getField rec "MostSevereInjuryType") ++ ", " ++
    mapAgeGroup (getField rec "AgeGroup") ++ ", " ++
    sqlNum (getField rec "InvolvedPersons") ++ ", " ++
    sqlNum (getField rec "Latitude") ++ ", " ++
    sqlNum (getField rec "Longitude") ++ ", " ++
    sqlStr (some (PVal.s mode)) ++ ", "

/-- The header text up to the generated date. -/
def genPrefix (mode : String) : String :=
  "-- CrashMap Data Import\n-- Mode: " ++ mode ++ "\n-- Generated: "

/-- The script text after the generated date: header remainder plus all
statements, independent of the date. -/
def genSuffix (records : List RecMap) (mode : String) (b : Nat) : String :=
  "\n-- Records: " ++ toString records.length ++ "\n\n" ++ sqlParts mode b records

/-- Sample record of the geom scenario: Latitude 47.0, Longitude -122.0. -/
def sampleGeomRec : RecMap :=
  [("Latitude", PVal.f "47.0" false), ("Longitude", PVal.f "-122.0" false)]

/-- Seven one-field sample records for the batching scenario. -/
def sampleSeven : List RecMap :=
  [[("ColliRptNum", PVal.s "R1")], [("ColliRptNum", PVal.s "R2")],
   [("ColliRptNum", PVal.s "R3")], [("ColliRptNum", PVal.s "R4")],
   [("ColliRptNum", PVal.s "R5")], [("ColliRptNum", PVal.s "R6")],
   [("ColliRptNum", PVal.s "R7")]]

/-- Decidable equality for the result type of the Dequoter model. -/
instance instExceptDecEq {e a : Type} [DecidableEq e] [DecidableEq a] :
    DecidableEq (Except e a) := fun x y =>
  match x, y with
  | .error u, .error v =>
    match decEq u v with
    | isTrue h => isTrue (congrArg Except.error h)
    | isFalse h => isFalse (fun q => h (by injection q))
  | .ok u, .ok v =>
    match decEq u v with
    | isTrue h => isTrue (congrArg Except.ok h)
    | isFalse h => isFalse (fun q => h (by injection q))
  | .error _, .ok _ => isFalse (fun q => Except.noConfusion q)
  | .ok _, .error _ => isFalse (fun q => Except.noConfusion q)

/-- Fuel does not matter for pyReplaceF once it exceeds the input length. -/
theorem pyReplaceF_congr (p : Char) (ps rep : List Char) :
    ∀ f g l, l.length < f → l.length < g →
      pyReplaceF p ps rep f l = pyReplaceF p ps rep g l := by
  intro f
  induction f with
  | zero => intro g l hf _; omega
  | succ f ih =>
    intro g l hf hg
    match g, l with
    | 0, l => omega
    | g + 1, [] => rfl
    | g + 1, c :: r =>
      simp only [pyReplaceF]
      by_cases h : (p :: ps).isPrefixOf (c :: r)
      · rw [if_pos h, if_pos h, ih g (r.drop ps.length)
          (by simp only [List.length_cons] at hf; simp [List.length_drop]; omega)
          (by simp only [List.length_cons] at hg; simp [List.length_drop]; omega)]
      · rw [if_neg h, if_neg h, ih g r
          (by simp only [List.length_cons] at hf; omega)
          (by simp only [List.length_cons] at hg; omega)]

/-- Unfolding equation of pyReplace on a cons cell. -/
theorem pyReplace_cons (p : Char) (ps rep : List Char) (c : Char) (r : List Char) :
    pyReplace p ps rep (c :: r) =
      if (p :: ps).isPrefixOf (c :: r) then rep ++ pyReplace p ps rep (r.drop ps.length)
      else c :: pyReplace p ps rep r := by
  show pyReplaceF p ps rep (r.length + 1 + 1) (c :: r) = _
  simp only [pyReplaceF]
  by_cases h : (p :: ps).isPrefixOf (c :: r)
  · rw [if_pos h, if_pos h]
    exact congrArg (rep ++ ·) (pyReplaceF_congr p ps rep (r.length + 1)
      ((r.drop ps.length).length + 1) (r.drop ps.length)
      (by simp [List.length_drop]; omega) (by omega))
  · rw [if_neg h, if_neg h]
    rfl

/-- Fuel does not matter for natCharsF once it exceeds the number. -/
theorem natCharsF_congr : ∀ f g n, n < f → n < g → natCharsF f n = natCharsF g n := by
  intro f
  induction f with
  | zero => intro g n hf _; omega
  | succ f ih =>
    intro g n hf hg
    match g with
    | 0 => omega
    | g + 1 =>
      simp only [natCharsF]
      by_cases h : n < 10
      · rw [if_pos h, if_pos h]
      · rw [if_neg h, if_neg h,
          ih g (n / 10) (by have := Nat.div_lt_self (by omega : 0 < n) (by omega : 1 < 10); omega)
            (by have := Nat.div_lt_self (by omega : 0 < n) (by omega : 1 < 10); omega)]

/-- Unfolding equation of natChars. -/
theorem natChars_unfold (n : Nat) :
    natChars n = if n < 10 then [digitChar n] else natChars (n / 10) ++ [digitChar (n % 10)] := by
  show natCharsF (n + 1) n = _
  simp only [natCharsF]
  by_cases h : n < 10
  · rw [if_pos h, if_pos h]
  · rw [if_neg h, if_neg h]
    exact congrArg (· ++ [digitChar (n % 10)]) (natCharsF_congr n _ (n / 10)
      (by have := Nat.div_lt_self (by omega : 0 < n) (by omega : 1 < 10); omega) (by omega))

/-- Fuel does not matter for chunksOfF once it exceeds the input length. -/
theorem chunksOfF_congr {α : Type} (b : Nat) :
    ∀ f g (l : List α), l.length < f → l.length < g → chunksOfF b f l = chunksOfF b g l := by
  intro f
  induction f with
  | zero => intro g l hf _; omega
  | succ f ih =>
    intro g l hf hg
    match g, l with
    | 0, l => omega
    | g + 1, [] => rfl
    | g + 1, c :: r =>
      simp only [chunksOfF]
      match b with
      | 0 => rfl
      | b' + 1 =>
        simp only
        rw [ih g (r.drop b')
          (by simp only [List.length_cons] at hf; simp [List.length_drop]; omega)
          (by simp only [List.length_cons] at hg; simp [List.length_drop]; omega)]

/-- chunksOf on the empty list. -/
theorem chunksOf_nil {α : Type} (b : Nat) : chunksOf b ([] : List α) = [] := rfl

/-- chunksOf with batch size zero. -/
theorem chunksOf_zero {α : Type} (l : List α) : chunksOf 0 l = [] := by
  cases l <;> rfl

/-- Unfolding equation of chunksOf on a cons cell with positive batch. -/
theorem chunksOf_cons {α : Type} (b' : Nat) (c : α) (r : List α) :
    chunksOf (b' + 1) (c :: r) =
      (c :: r).take (b' + 1) :: chunksOf (b' + 1) (r.drop b') := by
  show chunksOfF (b' + 1) (r.length + 1 + 1) (c :: r) = _
  simp only [chunksOfF]
  rw [chunksOfF_congr (b' + 1) (r.length + 1) ((r.drop b').length + 1) (r.drop b')
    (by simp [List.length_drop]; omega) (by omega)]
  rfl

/-- Fuel does not matter for sqlPartsF once it exceeds the input length. -/
theorem sqlPartsF_congr (mode : String) (b : Nat) :
    ∀ f g (l : List RecMap), l.length < f → l.length < g →
      sqlPartsF mode b f l = sqlPartsF mode b g l := by
  intro f
  induction f with
  | zero => intro g l hf _; omega
  | succ f ih =>
    intro g l hf hg
    match g, l with
    | 0, l => omega
    | g + 1, [] => rfl
    | g + 1, c :: r =>
      simp only [sqlPartsF]
      match b with
      | 0 => rfl
      | b' + 1 =>
        simp only
        rw [ih g (r.drop b')
          (by simp only [List.length_cons] at hf; simp [List.length_drop]; omega)
          (by simp only [List.length_cons] at hg; simp [List.length_drop]; omega)]

/-- sqlParts on the empty list. -/
theorem sqlParts_nil (mode : String) (b : Nat) : sqlParts mode b [] = "" := rfl

/-- Unfolding equation of sqlParts on a cons cell with positive batch. -/
theorem sqlParts_cons (mode : String) (b' : Nat) (c : RecMap) (r : List RecMap) :
    sqlParts mode (b' + 1) (c :: r) =
      mkStmt mode ((c :: r).take (b' + 1)) ++
        (if b' + 1 < (c :: r).length then "\n" else "") ++
        sqlParts mode (b' + 1) (r.drop b') := by
  show sqlPartsF mode (b' + 1) (r.length + 1 + 1) (c :: r) = _
  simp only [sqlPartsF]
  rw [sqlPartsF_congr mode (b' + 1) (r.length + 1) ((r.drop b').length + 1) (r.drop b')
    (by simp [List.length_drop]; omega) (by omega)]
  rfl

/-- Single-character-pattern replace acts pointwise. -/
theorem pyReplace_single (q : Char) (rep : List Char) :
    ∀ l : List Char, pyReplace q [] rep l = (l.map (fun c => if c = q then rep else [c])).flatten := by
  intro l
  induction l with
  | nil => rfl
  | cons c r ih =>
    rw [pyReplace_cons]
    by_cases h : c = q
    · subst h
      rw [if_pos (by simp [List.isPrefixOf])]
      simp [ih]
    · rw [if_neg (by simp [List.isPrefixOf]; exact fun e => h e.symm)]
      simp [h, ih]

/-- The data of doubleQuotes is the pointwise quote-doubling map. -/
theorem doubleQuotes_data (v : String) :
    (doubleQuotes v).data =
      (v.data.map (fun c => if c = '\'' then ['\'', '\''] else [c])).flatten := by
  exact pyReplace_single '\'' ['\'', '\''] v.data

/-- A non-quote head does not affect quote pairing. -/
theorem quotesPaired_cons_ne (c : Char) (h : c ≠ '\'') (t : List Char) :
    quotesPaired (c :: t) = quotesPaired t := by
  cases t with
  | nil => simp [quotesPaired, h]
  | cons c2 r2 => simp [quotesPaired, h]

/-- Quote-doubling leaves only properly paired single quotes. -/
theorem quotesPaired_doubled : ∀ l : List Char,
    quotesPaired ((l.map (fun c => if c = '\'' then ['\'', '\''] else [c])).flatten) = true := by
  intro l
  induction l with
  | nil => rfl
  | cons c r ih =>
    by_cases h : c = '\''
    · subst h
      simpa [quotesPaired] using ih
    · simp only [List.map_cons, List.flatten_cons, if_neg h, List.singleton_append]
      rw [quotesPaired_cons_ne c h]
      exact ih

/-- Flattening the chunks returns the original list. -/
theorem chunksOf_flatten {α : Type} (b' : Nat) :
    ∀ (n : Nat) (l : List α), l.length ≤ n → (chunksOf (b' + 1) l).flatten = l := by
  intro n
  induction n with
  | zero =>
    intro l h
    cases l with
    | nil => rfl
    | cons c r => simp at h
  | succ n ih =>
    intro l h
    cases l with
    | nil => rfl
    | cons c r =>
      rw [chunksOf_cons, List.flatten_cons,
        ih (r.drop b') (by simp only [List.length_cons] at h; simp [List.length_drop]; omega)]
      rw [show r.drop b' = (c :: r).drop (b' + 1) from rfl, List.take_append_drop]

/-- The number of chunks is the ceiling of length over batch size. -/
theorem chunksOf_length {α : Type} (b' : Nat) :
    ∀ (n : Nat) (l : List α), l.length ≤ n →
      (chunksOf (b' + 1) l).length = (l.length + (b' + 1) - 1) / (b' + 1) := by
  intro n
  induction n with
  | zero =>
    intro l h
    cases l with
    | nil => simp [chunksOf_nil, Nat.div_eq_of_lt]
    | cons c r => simp at h
  | succ n ih =>
    intro l h
    cases l with
    | nil => simp [chunksOf_nil, Nat.div_eq_of_lt]
    | cons c r =>
      rw [chunksOf_cons, List.length_cons,
        ih (r.drop b') (by simp only [List.length_cons] at h; simp [List.length_drop]; omega)]
      rw [List.length_drop, List.length_cons]
      by_cases hc : r.length ≤ b'
      · have h1 : r.length - b' = 0 := by omega
        have h2 : r.length + 1 + (b' + 1) - 1 = r.length + (b' + 1) := by omega
        rw [h1, h2, Nat.add_div_right _ (by omega), Nat.div_eq_of_lt (by omega),
          Nat.div_eq_of_lt (by omega)]
      · have h1 : r.length - b' + (b' + 1) - 1 = (r.length - b' - 1) + (b' + 1) := by omega
        have h2 : r.length + 1 + (b' + 1) - 1 = (r.length - b' - 1) + (b' + 1) + (b' + 1) := by
          omega
        rw [h1, h2, Nat.add_div_right _ (by omega), Nat.add_div_right _ (by omega),
          Nat.add_div_right _ (by omega)]

/-- Every chunk is nonempty and no longer than the batch size. -/
theorem chunksOf_mem {α : Type} (b' : Nat) :
    ∀ (n : Nat) (l : List α), l.length ≤ n →
      ∀ c ∈ chunksOf (b' + 1) l, c.length ≤ b' + 1 ∧ c ≠ [] := by
  intro n
  induction n with
  | zero =>
    intro l h
    cases l with
    | nil => intro c hc; simp [chunksOf_nil] at hc
    | cons c r => simp at h
  | succ n ih =>
    intro l h
    cases l with
    | nil => intro c hc; simp [chunksOf_nil] at hc
    | cons c r =>
      rw [chunksOf_cons]
      intro x hx
      rcases List.mem_cons.mp hx with hx | hx
      · subst hx
        constructor
        · simp [List.length_take_le (b' + 1) (c :: r)]
        · simp [List.take_succ_cons]
      · exact ih (r.drop b')
          (by simp only [List.length_cons] at h; simp [List.length_drop]; omega) x hx

/-- All chunks except possibly the last have exactly the batch size. -/
theorem chunksOf_dropLast {α : Type} (b' : Nat) :
    ∀ (n : Nat) (l : List α), l.length ≤ n →
      ∀ c ∈ (chunksOf (b' + 1) l).dropLast, c.length = b' + 1 := by
  intro n
  induction n with
  | zero =>
    intro l h
    cases l with
    | nil => intro c hc; simp [chunksOf_nil] at hc
    | cons c r => simp at h
  | succ n ih =>
    intro l h
    cases l with
    | nil => intro c hc; simp [chunksOf_nil] at hc
    | cons c r =>
      rw [chunksOf_cons]
      cases hrest : chunksOf (b' + 1) (r.drop b') with
      | nil => intro x hx; simp at hx
      | cons t ts =>
        rw [List.dropLast_cons_of_ne_nil (by simp)]
        intro x hx
        rcases List.mem_cons.mp hx with hx | hx
        · subst hx
          have hd : r.drop b' ≠ [] := by
            intro e
            rw [e, chunksOf_nil] at hrest
            exact List.noConfusion hrest
          have : b' < r.length := by
            by_contra hb
            exact hd (List.drop_eq_nil_of_le (by omega))
          simp [List.length_take]
          omega
        · rw [← hrest] at hx
          exact ih (r.drop b')
            (by simp only [List.length_cons] at h; simp [List.length_drop]; omega) x hx

/-- The generated tail equals the chunk statements joined by blank lines. -/
theorem sqlParts_eq (mode : String) (b' : Nat) :
    ∀ (n : Nat) (l : List RecMap), l.length ≤ n →
      sqlParts mode (b' + 1) l = joinSep "\n" ((chunksOf (b' + 1) l).map (mkStmt mode)) := by
  intro n
  induction n with
  | zero =>
    intro l h
    cases l with
    | nil => rfl
    | cons c r => simp at h
  | succ n ih =>
    intro l h
    cases l with
    | nil => rfl
    | cons c r =>
      rw [sqlParts_cons, chunksOf_cons, List.map_cons]
      cases hdrop : r.drop b' with
      | nil =>
        have hr : r.length ≤ b' := by
          have := congrArg List.length hdrop
          simp only [List.length_drop, List.length_nil] at this
          omega
        have hlen : ¬ b' + 1 < (c :: r).length := by
          simp only [List.length_cons]; omega
        rw [chunksOf_nil, List.map_nil, if_neg hlen, sqlParts_nil]
        simp [joinSep]
      | cons t ts =>
        have hlr : (t :: ts).length = r.length - b' := by
          have := congrArg List.length hdrop
          simp only [List.length_drop] at this
          omega
        have hb : b' < r.length := by
          simp only [List.length_cons] at hlr
          omega
        have hlen : b' + 1 < (c :: r).length := by
          simp only [List.length_cons]; omega
        have hlth : (t :: ts).length ≤ n := by
          simp only [List.length_cons] at h hlr ⊢
          omega
        rw [if_pos hlen, ih (t :: ts) hlth, chunksOf_cons, List.map_cons]
        rfl

/-- C4: for every record list and positive batch size, generate_sql emits
one INSERT statement per ceil(N/B) consecutive chunk of B records (the
last chunk holding the remainder), each statement terminated with the
ON CONFLICT ("ColliRptNum") DO NOTHING; clause, and joining the chunks
returns exactly the input records, so every ColliRptNum occurrence count
is preserved, duplicates not removed. -/
theorem claim4_batching (recs : List RecMap) (mode d : String) (b : Nat) (hb : 0 < b) :
    (chunksOf b recs).length = (recs.length + b - 1) / b ∧
    (chunksOf b recs).flatten = recs ∧
    (∀ c ∈ (chunksOf b recs).dropLast, c.length = b) ∧
    (∀ c ∈ chunksOf b recs, c.length ≤ b ∧ c ≠ []) ∧
    generateSql d recs mode b =
      genHeader mode d recs.length ++ joinSep "\n" ((chunksOf b recs).map (mkStmt mode)) ∧
    (∀ batch : List RecMap, ∃ p,
      mkStmt mode batch = p ++ "ON CONFLICT (\"ColliRptNum\") DO NOTHING;\n") := by
  obtain ⟨b', rfl⟩ : ∃ b', b = b' + 1 := ⟨b - 1, by omega⟩
  refine ⟨chunksOf_length b' recs.length recs (le_refl _),
    chunksOf_flatten b' recs.length recs (le_refl _),
    chunksOf_dropLast b' recs.length recs (le_refl _),
    chunksOf_mem b' recs.length recs (le_refl _), ?_, ?_⟩
  · show genHeader mode d recs.length ++ sqlParts mode (b' + 1) recs = _
    rw [sqlParts_eq mode b' recs.length recs (le_refl _)]
  · intro batch
    exact ⟨_, rfl⟩

/-- C4 witness: the 7-records, batch-size-3 scenario gives 3 statements of
row counts 3, 3 and 1, with every record kept. -/
theorem claim4_batching_witness :
    0 < 3 ∧
    (chunksOf 3 sampleSeven).length = (sampleSeven.length + 3 - 1) / 3 ∧
    (chunksOf 3 sampleSeven).flatten = sampleSeven ∧
    (chunksOf 3 sampleSeven).map List.length = [3, 3, 1] :=
  ⟨by decide, (claim4_batching sampleSeven "Bicyclist" "2025-10-12" 3 (by decide)).1,
   (claim4_batching sampleSeven "Bicyclist" "2025-10-12" 3 (by decide)).2.1, by decide⟩

/-- C5 counterexample: AgeGroup is a string-valued field, yet its present
empty-string value renders as bare NULL instead of the quoted string. -/
theorem claim5_cex :
    mapAgeGroup (some (PVal.s "")) = "NULL" ∧ sqlStr (some (PVal.s "")) = "''" ∧
    ("NULL" : String) ≠ "''" := by decide

/-- C5 (amended): sql_str wraps a present string value in single quotes
with every embedded single quote doubled (so no unescaped quote remains
inside the literal) and emits bare NULL exactly for an absent value;
RegionName and AgeGroup pass through their placeholder NULL-coercion
first. -/
theorem claim5_string_quoting (v : String) :
    sqlStr (some (PVal.s v)) = "'" ++ doubleQuotes v ++ "'" ∧
    (doubleQuotes v).data =
      (v.data.map (fun c => if c = '\'' then ['\'', '\''] else [c])).flatten ∧
    quotesPaired (doubleQuotes v).data = true ∧
    sqlStr none = "NULL" := by
  refine ⟨rfl, doubleQuotes_data v, ?_, rfl⟩
  rw [doubleQuotes_data v]
  exact quotesPaired_doubled v.data

/-- C6 counterexample: the value " ' " differs from the bare apostrophe
string, yet map_region still emits NULL, because the code strips
whitespace before the placeholder comparison. -/
theorem claim6_cex :
    (" ' " : String) ≠ "'" ∧ mapRegion (some (PVal.s " ' ")) = "NULL" ∧
    sqlStr (some (PVal.s " ' ")) ≠ "NULL" := by decide

/-- C6 (amended): RegionName maps to NULL when absent or when the value
stripped of surrounding whitespace equals the bare apostrophe, and to the
quoted string otherwise; AgeGroup maps to NULL when absent or
empty/whitespace-only, and to the quoted string otherwise. -/
theorem claim6_null_coercion (v : String) :
    mapRegion none = "NULL" ∧
    (pyStripStr v = "'" → mapRegion (some (PVal.s v)) = "NULL") ∧
    (pyStripStr v ≠ "'" → mapRegion (some (PVal.s v)) = sqlStr (some (PVal.s v))) ∧
    mapAgeGroup none = "NULL" ∧
    (pyStripStr v = "" → mapAgeGroup (some (PVal.s v)) = "NULL") ∧
    (pyStripStr v ≠ "" → mapAgeGroup (some (PVal.s v)) = sqlStr (some (PVal.s v))) := by
  refine ⟨rfl, ?_, ?_, rfl, ?_, ?_⟩ <;> intro h <;> simp [mapRegion, mapAgeGroup, pyStr, h]

/-- C6 witness: the stripped placeholder and a whitespace-only AgeGroup
both map to NULL. -/
theorem claim6_null_coercion_witness :
    pyStripStr " ' " = "'" ∧ mapRegion (some (PVal.s " ' ")) = "NULL" ∧
    pyStripStr "  " = "" ∧ mapAgeGroup (some (PVal.s "  ")) = "NULL" :=
  ⟨by decide, (claim6_null_coercion " ' ").2.1 (by decide), by decide,
   (claim6_null_coercion "  ").2.2.2.2.1 (by decide)⟩

/-- C7: the geom column is exactly ST_SetSRID(ST_MakePoint(lng, lat), 4326)
with longitude first, an absent coordinate renders the literal NULL inside
the call position, and the Latitude=47.0/Longitude=-122.0 scenario yields
the expected literal; row_values ends with the geom expression. -/
theorem claim7_geom (mode : String) (rec : RecMap) :
    rowValues mode rec = rowPrefix mode rec ++ geomOf rec ++ ")" ∧
    geomOf rec = "ST_SetSRID(ST_MakePoint(" ++ sqlNum (getField rec "Longitude") ++ ", " ++
      sqlNum (getField rec "Latitude") ++ "), 4326)" ∧
    sqlNum none = "NULL" ∧
    geomOf sampleGeomRec = "ST_SetSRID(ST_MakePoint(-122.0, 47.0), 4326)" := by
  refine ⟨rfl, rfl, rfl, by decide⟩

/-- C8 counterexample: a present non-numeric InvolvedPersons value renders
verbatim through str(), not as NULL, since sql_num never coerces. -/
theorem claim8_cex :
    sqlNum (some (PVal.s "abc")) = "abc" ∧ ("abc" : String) ≠ "NULL" :=
  ⟨rfl, by decide⟩

/-- C8 (amended): the numeric columns render str(value) for any present
value and bare NULL exactly for an absent one; no coercion check is
performed, so an uncoercible present value is emitted verbatim, not as
NULL. -/
theorem claim8_numeric_rendering (x : PVal) :
    sqlNum none = "NULL" ∧ sqlNum (some x) = pyStr x ∧
    sqlNum (some (PVal.i 3)) = "3" ∧ sqlNum (some (PVal.f "47.0" false)) = "47.0" := by
  refine ⟨rfl, rfl, by decide, rfl⟩

/-- C9 counterexample: generate_sql reads the clock, so two calls with
identical arguments on different UTC dates produce different outputs. -/
theorem claim9_cex :
    generateSql "2025-01-01" [] "Pedestrian" 500 ≠
      generateSql "2025-01-02" [] "Pedestrian" 500 := by decide

/-- C9 (amended): both cores are pure functions of their inputs plus, for
generate_sql, the UTC date read once per call; the date influences only
the Generated header line, the whole remainder of the script being a
function of the records, mode and batch size alone. -/
theorem claim9_determinism (d : String) (recs : List RecMap) (mode : String) (b : Nat) :
    generateSql d recs mode b = genPrefix mode ++ d ++ genSuffix recs mode b := by
  simp [generateSql, genHeader, genPrefix, genSuffix, String.append_assoc]

/-- C10: crash_date's slicing is total (the except branch cannot fire): an
absent or empty FullDate yields NULL, a non-empty FullDate yields its
first 10 characters quoted — the whole string when shorter than 10 —
while the FullDate column itself renders the quoted empty string. -/
theorem claim10_crash_date (s : String) :
    crashDate none = "NULL" ∧
    crashDate (some (PVal.s "")) = "NULL" ∧
    (s ≠ "" → crashDate (some (PVal.s s)) = sqlStr (some (PVal.s (pyTake10 s)))) ∧
    (s.data.length ≤ 10 → pyTake10 s = s) ∧
    sqlStr (some (PVal.s "")) = "''" := by
  refine ⟨rfl, by decide, ?_, ?_, by decide⟩
  · intro h
    have hf : pyFalsy (PVal.s s) = false := by simp [pyFalsy, h]
    simp [crashDate, hf, pyStr, pyTake10]
  · intro h
    show (s.data.take 10).asString = s
    rw [List.take_of_length_le h]
    rfl

/-- C10 witness: a 7-character FullDate is quoted whole and the slicing
identity holds for it. -/
theorem claim10_crash_date_witness :
    ("2025-01" : String) ≠ "" ∧ ("2025-01" : String).data.length ≤ 10 ∧
    crashDate (some (PVal.s "2025-01")) = sqlStr (some (PVal.s (pyTake10 "2025-01"))) ∧
    pyTake10 "2025-01" = "2025-01" :=
  ⟨by decide, by decide, (claim10_crash_date "2025-01").2.2.1 (by decide),
   (claim10_crash_date "2025-01").2.2.2.1 (by decide)⟩

/-- Equation of escQB on a cons cell. -/
theorem escQB_cons (c : Char) (r : List Char) :
    escQB (c :: r) =
      (if c = '"' then ['\\', '"'] else if c = '\\' then ['\\', '\\'] else [c]) ++ escQB r := rfl

/-- escQB after a double quote. -/
theorem escQB_cons_quote (r : List Char) : escQB ('"' :: r) = '\\' :: '"' :: escQB r := by
  simp [escQB_cons]

/-- escQB after a backslash. -/
theorem escQB_cons_bs (r : List Char) : escQB ('\\' :: r) = '\\' :: '\\' :: escQB r := by
  simp [escQB_cons]

/-- escQB after an ordinary character. -/
theorem escQB_cons_other (c : Char) (h1 : c ≠ '"') (h2 : c ≠ '\\') (r : List Char) :
    escQB (c :: r) = c :: escQB r := by
  simp [escQB_cons, h1, h2]

/-- Equation of escB on a cons cell. -/
theorem escB_cons (c : Char) (r : List Char) :
    escB (c :: r) = (if c = '\\' then ['\\', '\\'] else [c]) ++ escB r := rfl

/-- escB after a backslash. -/
theorem escB_cons_bs (r : List Char) : escB ('\\' :: r) = '\\' :: '\\' :: escB r := by
  simp [escB_cons]

/-- escB after an ordinary character. -/
theorem escB_cons_other (c : Char) (h2 : c ≠ '\\') (r : List Char) :
    escB (c :: r) = c :: escB r := by
  simp [escB_cons, h2]

/-- escQB output never starts with a double quote. -/
theorem quote_not_prefix_escQB (t : List Char) :
    (['"'] : List Char).isPrefixOf (escQB t) = false := by
  cases t with
  | nil => rfl
  | cons c r =>
    by_cases h1 : c = '"'
    · subst h1
      rw [escQB_cons_quote]
      simp [List.isPrefixOf]
    · by_cases h2 : c = '\\'
      · subst h2
        rw [escQB_cons_bs]
        simp [List.isPrefixOf]
      · rw [escQB_cons_other c h1 h2]
        simp only [List.isPrefixOf, Bool.and_eq_false_iff]
        left
        simp
        exact fun e => h1 e.symm

/-- The first replace of the unescape pass turns quote-and-backslash
escaping into backslash-only escaping. -/
theorem replQ_escQB : ∀ t : List Char, pyReplace '\\' ['"'] ['"'] (escQB t) = escB t := by
  intro t
  induction t with
  | nil => rfl
  | cons c r ih =>
    by_cases h1 : c = '"'
    · subst h1
      rw [escQB_cons_quote, escB_cons_other '"' (by decide)]
      rw [pyReplace_cons, if_pos (by simp [List.isPrefixOf])]
      simp only [List.length_cons, List.length_nil, Nat.zero_add, List.drop_succ_cons,
        List.drop_zero]
      simp [ih]
    · by_cases h2 : c = '\\'
      · subst h2
        rw [escQB_cons_bs, escB_cons_bs]
        rw [pyReplace_cons, if_neg (by simp [List.isPrefixOf])]
        rw [pyReplace_cons, if_neg (by simp [List.isPrefixOf, quote_not_prefix_escQB r])]
        simp [ih]
      · rw [escQB_cons_other c h1 h2, escB_cons_other c h2]
        rw [pyReplace_cons, if_neg (by
          simp only [List.isPrefixOf, Bool.and_eq_true, beq_iff_eq]
          exact fun e => h2 e.1.symm)]
        simp [ih]

/-- The second replace of the unescape pass undoes backslash doubling. -/
theorem replB_escB : ∀ t : List Char, pyReplace '\\' ['\\'] ['\\'] (escB t) = t := by
  intro t
  induction t with
  | nil => rfl
  | cons c r ih =>
    by_cases h : c = '\\'
    · subst h
      rw [escB_cons_bs]
      rw [pyReplace_cons, if_pos (by simp [List.isPrefixOf])]
      simp only [List.length_cons, List.length_nil, Nat.zero_add, List.drop_succ_cons,
        List.drop_zero]
      simp [ih]
    · rw [escB_cons_other c h]
      rw [pyReplace_cons, if_neg (by
        simp only [List.isPrefixOf, Bool.and_eq_true, beq_iff_eq]
        exact fun e => h e.1.symm)]
      simp [ih]

/-- The sequential unescape of line 45 inverts one quote-and-escape layer. -/
theorem unescapeLayer_escQB (t : List Char) : unescapeLayer (escQB t) = t := by
  unfold unescapeLayer
  rw [replQ_escQB, replB_escB]

/-- Python strip is the identity on text with non-whitespace endpoints. -/
theorem pyStrip_id_of_ends (a z : Char) (ha : isPyWs a = false) (hz : isPyWs z = false)
    (m : List Char) : pyStrip (a :: m ++ [z]) = a :: m ++ [z] := by
  have h1 : List.dropWhile isPyWs (a :: (m ++ [z])) = a :: (m ++ [z]) := by
    rw [List.dropWhile_cons, if_neg (by simp [ha])]
  have h2 : (a :: (m ++ [z])).reverse = z :: (m.reverse ++ [a]) := by
    rw [show a :: (m ++ [z]) = (a :: m) ++ [z] from rfl, List.reverse_append]
    simp
  have h3 : List.dropWhile isPyWs (z :: (m.reverse ++ [a])) = z :: (m.reverse ++ [a]) := by
    rw [List.dropWhile_cons, if_neg (by simp [hz])]
  show ((List.dropWhile isPyWs (a :: (m ++ [z]))).reverse.dropWhile isPyWs).reverse =
    a :: (m ++ [z])
  rw [h1, h2, h3]
  rw [show z :: (m.reverse ++ [a]) = (z :: m.reverse) ++ [a] from rfl, List.reverse_append]
  simp

/-- A wrapped text is untouched by the initial strip. -/
theorem pyStrip_wrapLayer (t : List Char) : pyStrip (wrapLayer t) = wrapLayer t :=
  pyStrip_id_of_ends '"' '"' (by decide) (by decide) (escQB t)

/-- A wrapped text starts and ends with a double quote. -/
theorem quoteDelimited_wrapLayer (t : List Char) : quoteDelimited (wrapLayer t) = true := by
  have hl : (wrapLayer t).getLast? = some '"' := by
    show (('"' :: escQB t) ++ ['"']).getLast? = some '"'
    exact List.getLast?_concat _
  have hh : (wrapLayer t).head? = some '"' := rfl
  unfold quoteDelimited
  rw [hl, hh]
  rfl

/-- Slicing off the outer quotes of a wrapped text leaves the escaped body. -/
theorem pyMid_wrapLayer (t : List Char) : pyMid (wrapLayer t) = escQB t := by
  show (('"' :: (escQB t ++ ['"'])).drop 1).dropLast = escQB t
  rw [List.drop_succ_cons, List.drop_zero, List.dropLast_concat]

/-- One loop iteration strips exactly one wrapping layer. -/
theorem stripStep_wrapLayer (t : List Char) : stripStep (wrapLayer t) = t := by
  unfold stripStep
  rw [if_pos (by rw [quoteDelimited_wrapLayer]), pyMid_wrapLayer, unescapeLayer_escQB]

/-- A digit character differs from any non-digit character. -/
theorem digit_ne (c x : Char) (h : c.isDigit = true) (hx : x.isDigit = false) : c ≠ x := by
  intro e
  rw [e, hx] at h
  exact Bool.noConfusion h

/-- Digit characters are not JSON whitespace. -/
theorem digit_not_ws (c : Char) (h : c.isDigit = true) : isJsonWs c = false := by
  have h1 : c ≠ ' ' := digit_ne c ' ' h (by decide)
  have h2 : c ≠ '\t' := digit_ne c '\t' h (by decide)
  have h3 : c ≠ '\n' := digit_ne c '\n' h (by decide)
  have h4 : c ≠ '\r' := digit_ne c '\r' h (by decide)
  simp [isJsonWs, h1, h2, h3, h4]

/-- Every character of a decimal representation is a digit. -/
theorem natChars_digits_bounded :
    ∀ (b n : Nat), n ≤ b → ∀ c ∈ natChars n, c.isDigit = true := by
  intro b
  induction b with
  | zero =>
    intro n hn c hc
    have : n = 0 := by omega
    subst this
    have e : natChars 0 = ['0'] := rfl
    rw [e] at hc
    simp at hc
    subst hc
    decide
  | succ b ih =>
    intro n hn c hc
    rw [natChars_unfold] at hc
    by_cases h : n < 10
    · rw [if_pos h] at hc
      simp at hc
      subst hc
      exact (by decide : ∀ m, m < 10 → (digitChar m).isDigit = true) n h
    · rw [if_neg h] at hc
      rcases List.mem_append.mp hc with hc | hc
      · have hd : n / 10 ≤ b := by
          have := Nat.div_lt_self (by omega : 0 < n) (by omega : 1 < 10)
          omega
        exact ih (n / 10) hd c hc
      · simp at hc
        subst hc
        exact (by decide : ∀ m, m < 10 → (digitChar m).isDigit = true) (n % 10)
          (Nat.mod_lt _ (by omega))

/-- Digit membership for the decimal representation. -/
theorem natChars_digits (n : Nat) : ∀ c ∈ natChars n, c.isDigit = true :=
  natChars_digits_bounded n n (le_refl n)

/-- A decimal representation is a nonempty digit string whose head is
nonzero for a positive number. -/
theorem natChars_head_bounded :
    ∀ (b n : Nat), n ≤ b →
      ∃ c cs, natChars n = c :: cs ∧ c.isDigit = true ∧ (0 < n → c ≠ '0') := by
  intro b
  induction b with
  | zero =>
    intro n hn
    have : n = 0 := by omega
    subst this
    exact ⟨'0', [], rfl, by decide, by omega⟩
  | succ b ih =>
    intro n hn
    rw [natChars_unfold]
    by_cases h : n < 10
    · rw [if_pos h]
      refine ⟨digitChar n, [], rfl, (by decide : ∀ m, m < 10 → (digitChar m).isDigit = true) n h, ?_⟩
      intro hp
      exact (by decide : ∀ m, m < 10 → 0 < m → digitChar m ≠ '0') n h hp
    · rw [if_neg h]
      have hd : n / 10 ≤ b := by
        have := Nat.div_lt_self (by omega : 0 < n) (by omega : 1 < 10)
        omega
      obtain ⟨c, cs, hc, hdig, hnz⟩ := ih (n / 10) hd
      refine ⟨c, cs ++ [digitChar (n % 10)], by rw [hc]; rfl, hdig, ?_⟩
      intro _
      exact hnz (by omega)

/-- Head decomposition of the decimal representation. -/
theorem natChars_head (n : Nat) :
    ∃ c cs, natChars n = c :: cs ∧ c.isDigit = true ∧ (0 < n → c ≠ '0') :=
  natChars_head_bounded n n (le_refl n)

/-- Folding decimal digits over the representation recovers the number. -/
theorem natChars_foldl_bounded :
    ∀ (b n a : Nat), n ≤ b →
      List.foldl (fun x c => x * 10 + (c.toNat - 48)) a (natChars n) =
        a * 10 ^ (natChars n).length + n := by
  intro b
  induction b with
  | zero =>
    intro n a hn
    have : n = 0 := by omega
    subst this
    have e : natChars 0 = ['0'] := rfl
    rw [e]
    simp [List.foldl]
  | succ b ih =>
    intro n a hn
    rw [natChars_unfold]
    by_cases h : n < 10
    · rw [if_pos h]
      have hv : (digitChar n).toNat - 48 = n :=
        (by decide : ∀ m, m < 10 → (digitChar m).toNat - 48 = m) n h
      simp [List.foldl, hv]
    · rw [if_neg h]
      have hd : n / 10 ≤ b := by
        have := Nat.div_lt_self (by omega : 0 < n) (by omega : 1 < 10)
        omega
      rw [List.foldl_append, ih (n / 10) a hd]
      have hv : (digitChar (n % 10)).toNat - 48 = n % 10 :=
        (by decide : ∀ m, m < 10 → (digitChar m).toNat - 48 = m) (n % 10)
          (Nat.mod_lt _ (by omega))
      simp only [List.foldl_cons, List.foldl_nil, hv, List.length_append,
        List.length_cons, List.length_nil]
      have hp : a * 10 ^ ((natChars (n / 10)).length + (0 + 1)) =
          (a * 10 ^ (natChars (n / 10)).length) * 10 := by ring
      rw [hp]
      omega

/-- grabDigits consumes exactly a leading digit block. -/
theorem grabDigits_append :
    ∀ (ds : List Char), (∀ c ∈ ds, c.isDigit = true) →
      ∀ (a : Nat) (r : List Char), headNotDigit r = true →
        grabDigits a (ds ++ r) = (List.foldl (fun x c => x * 10 + (c.toNat - 48)) a ds, r) := by
  intro ds
  induction ds with
  | nil =>
    intro _ a r hr
    cases r with
    | nil => rfl
    | cons c rr =>
      have hc : c.isDigit = false := by
        simp [headNotDigit] at hr
        exact hr
      simp [grabDigits, hc]
  | cons d ds ih =>
    intro hds a r hr
    have hd : d.isDigit = true := hds d (by simp)
    simp only [List.cons_append, grabDigits, hd, if_true, List.foldl_cons]
    exact ih (fun c hc => hds c (by simp [hc])) _ r hr

/-- parseUNum round trip on decimal representations. -/
theorem parseUNum_natChars (n : Nat) (r : List Char) (hr : headNotDigit r = true) :
    parseUNum (natChars n ++ r) = some (n, r) := by
  by_cases h0 : n = 0
  · subst h0
    have e : natChars 0 = ['0'] := rfl
    rw [e]
    simp [parseUNum, hr]
  · obtain ⟨c, cs, hc, hdig, hne⟩ := natChars_head n
    have hnz : c ≠ '0' := hne (by omega)
    have hf : List.foldl (fun x c => x * 10 + (c.toNat - 48)) 0 (natChars n) = n := by
      rw [natChars_foldl_bounded n n 0 (le_refl n)]
      simp
    rw [hc] at hf
    simp only [List.foldl_cons, Nat.zero_mul, Nat.zero_add] at hf
    have hcs : ∀ x ∈ cs, x.isDigit = true := by
      intro x hx
      exact natChars_digits n x (by rw [hc]; simp [hx])
    rw [hc]
    simp only [List.cons_append, parseUNum, if_neg hnz, hdig, if_true]
    rw [grabDigits_append cs hcs _ r hr, hf]

/-- parseNum round trip on serialized integers. -/
theorem parseNum_intChars (n : Int) (r : List Char) (hr : headNotDigit r = true) :
    parseNum (intChars n ++ r) = some (n, r) := by
  unfold intChars
  by_cases h : n < 0
  · rw [if_pos h]
    simp only [List.cons_append]
    unfold parseNum
    rw [if_pos (show ('-' :: (natChars n.natAbs ++ r)).head? = some '-' from rfl)]
    simp only [List.tail_cons]
    rw [parseUNum_natChars n.natAbs r hr]
    have e : -(n.natAbs : Int) = n := by omega
    show some (-(n.natAbs : Int), r) = some (n, r)
    rw [e]
  · rw [if_neg h]
    obtain ⟨c, cs, hc, hdig, _⟩ := natChars_head n.natAbs
    unfold parseNum
    rw [if_neg (by
      rw [hc]
      simp only [List.cons_append, List.head?_cons]
      intro e
      have : c = '-' := by injection e
      exact digit_ne c '-' hdig (by decide) this)]
    rw [parseUNum_natChars n.natAbs r hr]
    have e : (n.natAbs : Int) = n := by omega
    simp [e]

/-- Equation of escStr on a cons cell. -/
theorem escStr_cons (c : Char) (r : List Char) : escStr (c :: r) = escChar c ++ escStr r := rfl

/-- hexVal inverts hexDigitChar on hexadecimal digits. -/
theorem hexVal_hexDigitChar : ∀ d, d < 16 → hexVal (hexDigitChar d) = some d := by decide

/-- parseEsc on a four-hex-digit unicode escape. -/
theorem parseEsc_u (a b : Char) (va vb : Nat) (X : List Char)
    (ha : hexVal a = some va) (hb : hexVal b = some vb) :
    parseEsc ('u' :: '0' :: '0' :: a :: b :: X) =
      (parseStrBody X).map
        (fun p => (Char.ofNat (((0 * 16 + 0) * 16 + va) * 16 + vb) :: p.1, p.2)) := by
  simp only [parseEsc]
  rw [if_neg (by decide), if_neg (by decide), if_neg (by decide), if_neg (by decide),
    if_neg (by decide), if_neg (by decide), if_neg (by decide), if_neg (by decide)]
  simp only [if_true]
  rw [show hexVal '0' = some 0 from rfl, ha, hb]

/-- Consuming one escaped character from a string-literal body. -/
theorem parseStrBody_escChar (c : Char) (X : List Char) (t' r' : List Char)
    (hX : parseStrBody X = some (t', r')) :
    parseStrBody (escChar c ++ X) = some (c :: t', r') := by
  by_cases h1 : c = '"'
  · subst h1
    rw [show escChar '"' = ['\\', '"'] from by simp [escChar]]
    simp [parseStrBody, parseEsc, hX]
  · by_cases h2 : c = '\\'
    · subst h2
      rw [show escChar '\\' = ['\\', '\\'] from by simp [escChar]]
      simp [parseStrBody, parseEsc, hX]
    · by_cases h3 : c = '\n'
      · subst h3
        rw [show escChar '\n' = ['\\', 'n'] from by simp [escChar]]
        simp [parseStrBody, parseEsc, hX]
      · by_cases h4 : c = '\t'
        · subst h4
          rw [show escChar '\t' = ['\\', 't'] from by simp [escChar]]
          simp [parseStrBody, parseEsc, hX]
        · by_cases h5 : c = '\r'
          · subst h5
            rw [show escChar '\r' = ['\\', 'r'] from by simp [escChar]]
            simp [parseStrBody, parseEsc, hX]
          · by_cases h6 : c = Char.ofNat 8
            · subst h6
              rw [show escChar (Char.ofNat 8) = ['\\', 'b'] from by simp [escChar]]
              simp [parseStrBody, parseEsc, hX]
            · by_cases h7 : c = Char.ofNat 12
              · subst h7
                rw [show escChar (Char.ofNat 12) = ['\\', 'f'] from by simp [escChar]]
                simp [parseStrBody, parseEsc, hX]
              · by_cases h8 : c.toNat < 32
                · rw [show escChar c =
                      ['\\', 'u', '0', '0', hexDigitChar (c.toNat / 16),
                        hexDigitChar (c.toNat % 16)] from by
                    simp [escChar, h1, h2, h3, h4, h5, h6, h7, h8]]
                  have hhi : hexVal (hexDigitChar (c.toNat / 16)) = some (c.toNat / 16) :=
                    hexVal_hexDigitChar _ (by omega)
                  have hlo : hexVal (hexDigitChar (c.toNat % 16)) = some (c.toNat % 16) :=
                    hexVal_hexDigitChar _ (Nat.mod_lt _ (by omega))
                  show parseStrBody ('\\' :: 'u' :: '0' :: '0' :: hexDigitChar (c.toNat / 16) ::
                    hexDigitChar (c.toNat % 16) :: X) = some (c :: t', r')
                  rw [show parseStrBody ('\\' :: 'u' :: '0' :: '0' ::
                      hexDigitChar (c.toNat / 16) :: hexDigitChar (c.toNat % 16) :: X) =
                      parseEsc ('u' :: '0' :: '0' :: hexDigitChar (c.toNat / 16) ::
                        hexDigitChar (c.toNat % 16) :: X) from by simp [parseStrBody]]
                  rw [parseEsc_u _ _ _ _ X hhi hlo, hX]
                  simp
                  rw [show c.toNat / 16 * 16 + c.toNat % 16 = c.toNat from by omega,
                    Char.ofNat_toNat]
                · rw [show escChar c = [c] from by simp [escChar, h1, h2, h3, h4, h5, h6, h7, h8]]
                  simp [parseStrBody, h1, h2, h8, hX]

/-- parseStrBody round trip over a fully escaped string body. -/
theorem parseStrBody_escStr : ∀ (t r : List Char),
    parseStrBody (escStr t ++ '"' :: r) = some (t, r) := by
  intro t
  induction t with
  | nil =>
    intro r
    simp [escStr, parseStrBody]
  | cons c t ih =>
    intro r
    rw [escStr_cons, List.append_assoc]
    exact parseStrBody_escChar c _ t r (ih r)

/-- parseStrBody also accepts a body escaped only for quotes and
backslashes, provided it has no raw control characters. -/
theorem parseStrBody_escQB : ∀ (t r : List Char), noCtrl t = true →
    parseStrBody (escQB t ++ '"' :: r) = some (t, r) := by
  intro t
  induction t with
  | nil =>
    intro r _
    simp [escQB, parseStrBody]
  | cons c t ih =>
    intro r hn
    have hc : 32 ≤ c.toNat := by
      simp [noCtrl] at hn
      exact hn.1
    have ht : noCtrl t = true := by
      simp only [noCtrl, List.all_cons, Bool.and_eq_true] at hn
      exact hn.2
    by_cases h1 : c = '"'
    · subst h1
      rw [escQB_cons_quote, List.cons_append, List.cons_append]
      simp [parseStrBody, parseEsc, ih r ht]
    · by_cases h2 : c = '\\'
      · subst h2
        rw [escQB_cons_bs, List.cons_append, List.cons_append]
        simp [parseStrBody, parseEsc, ih r ht]
      · rw [escQB_cons_other c h1 h2, List.cons_append]
        simp [parseStrBody, h1, h2, show ¬ c.toNat < 32 from by omega, ih r ht]

/-- Digit characters have code points between 48 and 57. -/
theorem toNat_of_isDigit (c : Char) (h : c.isDigit = true) : 48 ≤ c.toNat ∧ c.toNat ≤ 57 := by
  simp only [Char.isDigit, Bool.and_eq_true, decide_eq_true_eq] at h
  obtain ⟨h1, h2⟩ := h
  exact ⟨UInt32.le_toNat_of_le (by decide) h1, UInt32.toNat_le_of_le (by decide) h2⟩

/-- Equation: serialization of a non-empty array. -/
theorem serVal_arr_cons (x : Json) (xs : List Json) :
    serVal (.arr (x :: xs)) = '[' :: serVal x ++ serRest xs ++ [']'] := rfl

/-- Equation: serialization of a non-empty object. -/
theorem serVal_obj_cons (f : List Char × Json) (fs : List (List Char × Json)) :
    serVal (.obj (f :: fs)) =
      Char.ofNat 123 :: serField f ++ serFRest fs ++ [Char.ofNat 125] := rfl

/-- Equation: serialization of remaining array elements. -/
theorem serRest_cons (x : Json) (xs : List Json) :
    serRest (x :: xs) = ',' :: serVal x ++ serRest xs := rfl

/-- Equation: serialization of one object field. -/
theorem serField_mk (k : List Char) (v : Json) :
    serField (k, v) = '"' :: escStr k ++ '"' :: ':' :: serVal v := rfl

/-- Equation: serialization of remaining object fields. -/
theorem serFRest_cons (f : List Char × Json) (fs : List (List Char × Json)) :
    serFRest (f :: fs) = ',' :: serField f ++ serFRest fs := rfl

/-- Every serialized value starts with one of the fixed value-start
characters. -/
theorem serVal_head : ∀ v : Json, ∃ c cs, serVal v = c :: cs ∧
    (c = 'n' ∨ c = 't' ∨ c = 'f' ∨ c = '"' ∨ c = '[' ∨ c = Char.ofNat 123 ∨ c = '-' ∨
      c.isDigit = true) := by
  intro v
  cases v with
  | null => exact ⟨'n', _, rfl, by simp⟩
  | bool b =>
    cases b with
    | true => exact ⟨'t', _, rfl, by simp⟩
    | false => exact ⟨'f', _, rfl, by simp⟩
  | num n =>
    show ∃ c cs, intChars n = c :: cs ∧ _
    unfold intChars
    by_cases h : n < 0
    · rw [if_pos h]
      exact ⟨'-', _, rfl, by simp⟩
    · rw [if_neg h]
      obtain ⟨c, cs, hc, hdig, _⟩ := natChars_head n.natAbs
      exact ⟨c, cs, hc, by simp [hdig]⟩
  | str s => exact ⟨'"', _, rfl, by simp⟩
  | arr l =>
    cases l with
    | nil => exact ⟨'[', _, rfl, by simp⟩
    | cons x xs => exact ⟨'[', _, serVal_arr_cons x xs, by simp⟩
  | obj l =>
    cases l with
    | nil => exact ⟨Char.ofNat 123, _, rfl, by simp⟩
    | cons f fs => exact ⟨Char.ofNat 123, _, serVal_obj_cons f fs, by simp⟩

/-- Every serialized value starts with a character that is not whitespace
and not a closing bracket or brace. -/
theorem serVal_cons_spec (v : Json) : ∃ c cs, serVal v = c :: cs ∧ isJsonWs c = false ∧
    c ≠ ']' ∧ c ≠ Char.ofNat 125 := by
  obtain ⟨c, cs, hc, hd⟩ := serVal_head v
  refine ⟨c, cs, hc, ?_, ?_, ?_⟩
  · rcases hd with h | h | h | h | h | h | h | h
    all_goals first
    | (subst h; decide)
    | (exact digit_not_ws c h)
  · rcases hd with h | h | h | h | h | h | h | h
    all_goals first
    | (subst h; decide)
    | (exact digit_ne c ']' h (by decide))
  · rcases hd with h | h | h | h | h | h | h | h
    all_goals first
    | (subst h; decide)
    | (exact digit_ne c (Char.ofNat 125) h (by decide))

/-- Skipping whitespace is the identity when the head is not whitespace. -/
theorem skipWs_cons_of_not_ws (c : Char) (r : List Char) (h : isJsonWs c = false) :
    skipWs (c :: r) = c :: r := by
  simp [skipWs, List.dropWhile_cons, h]

/-- Skipping whitespace does not change serialized output. -/
theorem skipWs_serVal_append (v : Json) (r : List Char) :
    skipWs (serVal v ++ r) = serVal v ++ r := by
  obtain ⟨c, cs, hc, hws, _, _⟩ := serVal_cons_spec v
  rw [hc, List.cons_append, skipWs_cons_of_not_ws _ _ hws]

/-- A remaining-elements serialization followed by a close bracket starts
with a comma or the bracket, never a digit. -/
theorem headNotDigit_serRest (l : List Json) (x : Char) (hx : x.isDigit = false)
    (r : List Char) : headNotDigit (serRest l ++ x :: r) = true := by
  cases l with
  | nil => simp [serRest, headNotDigit, hx]
  | cons y ys => rw [serRest_cons]; simp [headNotDigit]

/-- A remaining-fields serialization followed by a close brace starts with
a comma or the brace, never a digit. -/
theorem headNotDigit_serFRest (l : List (List Char × Json)) (x : Char)
    (hx : x.isDigit = false) (r : List Char) :
    headNotDigit (serFRest l ++ x :: r) = true := by
  cases l with
  | nil => simp [serFRest, headNotDigit, hx]
  | cons g gs => rw [serFRest_cons]; simp [headNotDigit]

/-- noCtrl distributes over append. -/
theorem noCtrl_append (a b : List Char) : noCtrl (a ++ b) = (noCtrl a && noCtrl b) := by
  simp [noCtrl, List.all_append]

/-- noCtrl on the empty list. -/
theorem noCtrl_nil : noCtrl [] = true := rfl

/-- noCtrl on a cons cell. -/
theorem noCtrl_cons (c : Char) (l : List Char) :
    noCtrl (c :: l) = (decide (32 ≤ c.toNat) && noCtrl l) := by
  simp [noCtrl]

/-- Escaped characters contain no raw control characters. -/
theorem noCtrl_escChar (c : Char) : noCtrl (escChar c) = true := by
  unfold escChar
  split_ifs with h1 h2 h3 h4 h5 h6 h7 h8
  · decide
  · decide
  · decide
  · decide
  · decide
  · decide
  · decide
  · have hhi : 32 ≤ (hexDigitChar (c.toNat / 16)).toNat :=
      (by decide : ∀ d, d < 16 → 32 ≤ (hexDigitChar d).toNat) _ (by omega)
    have hlo : 32 ≤ (hexDigitChar (c.toNat % 16)).toNat :=
      (by decide : ∀ d, d < 16 → 32 ≤ (hexDigitChar d).toNat) _ (Nat.mod_lt _ (by omega))
    simp [noCtrl, hhi, hlo]
  · simp [noCtrl]
    omega

/-- Escaped string bodies contain no raw control characters. -/
theorem noCtrl_escStr : ∀ s : List Char, noCtrl (escStr s) = true := by
  intro s
  induction s with
  | nil => rfl
  | cons c r ih =>
    rw [escStr_cons, noCtrl_append, noCtrl_escChar, ih]
    rfl

/-- Decimal representations contain no control characters. -/
theorem noCtrl_natChars (n : Nat) : noCtrl (natChars n) = true := by
  simp only [noCtrl, List.all_eq_true, decide_eq_true_eq]
  intro c hc
  have := toNat_of_isDigit c (natChars_digits n c hc)
  omega

/-- Integer representations contain no control characters. -/
theorem noCtrl_intChars (n : Int) : noCtrl (intChars n) = true := by
  unfold intChars
  by_cases h : n < 0
  · rw [if_pos h, noCtrl_cons, noCtrl_natChars]
    rfl
  · rw [if_neg h]
    exact noCtrl_natChars n.natAbs

/-- Serialized JSON text contains no raw control characters. -/
theorem noCtrl_ser_bounded : ∀ b : Nat,
    (∀ v : Json, (serVal v).length ≤ b → noCtrl (serVal v) = true) ∧
    (∀ l : List Json, (serRest l).length ≤ b → noCtrl (serRest l) = true) ∧
    (∀ f : List Char × Json, (serField f).length ≤ b → noCtrl (serField f) = true) ∧
    (∀ l : List (List Char × Json), (serFRest l).length ≤ b → noCtrl (serFRest l) = true) := by
  intro b
  induction b with
  | zero =>
    refine ⟨?_, ?_, ?_, ?_⟩
    · intro v hv
      obtain ⟨c, cs, hc, _⟩ := serVal_head v
      rw [hc] at hv
      simp at hv
    · intro l hl
      cases l with
      | nil => rfl
      | cons x xs => rw [serRest_cons] at hl; simp at hl
    · intro f hf
      obtain ⟨k, v⟩ := f
      rw [serField_mk] at hf
      simp at hf
    · intro l hl
      cases l with
      | nil => rfl
      | cons g gs => rw [serFRest_cons] at hl; simp at hl
  | succ b ih =>
    refine ⟨?_, ?_, ?_, ?_⟩
    · intro v hv
      cases v with
      | null => decide
      | bool bb => cases bb <;> decide
      | num n => exact noCtrl_intChars n
      | str s =>
        show noCtrl ('"' :: escStr s ++ ['"']) = true
        rw [List.cons_append, noCtrl_cons, noCtrl_append, noCtrl_escStr]
        rfl
      | arr l =>
        cases l with
        | nil => decide
        | cons x xs =>
          rw [serVal_arr_cons] at hv ⊢
          simp only [List.length_cons, List.length_append, List.length_nil] at hv
          simp [noCtrl_cons, noCtrl_append, noCtrl_nil, ih.1 x (by omega), ih.2.1 xs (by omega)]
      | obj l =>
        cases l with
        | nil => decide
        | cons f fs =>
          rw [serVal_obj_cons] at hv ⊢
          simp only [List.length_cons, List.length_append, List.length_nil] at hv
          simp [noCtrl_cons, noCtrl_append, noCtrl_nil, ih.2.2.1 f (by omega), ih.2.2.2 fs (by omega)]
    · intro l hl
      cases l with
      | nil => rfl
      | cons x xs =>
        rw [serRest_cons] at hl ⊢
        simp only [List.length_cons, List.length_append] at hl
        simp [noCtrl_cons, noCtrl_append, noCtrl_nil, ih.1 x (by omega), ih.2.1 xs (by omega)]
    · intro f hf
      obtain ⟨k, v⟩ := f
      rw [serField_mk] at hf ⊢
      simp only [List.length_cons, List.length_append] at hf
      simp [noCtrl_cons, noCtrl_append, noCtrl_nil, noCtrl_escStr, ih.1 v (by omega)]
    · intro l hl
      cases l with
      | nil => rfl
      | cons g gs =>
        rw [serFRest_cons] at hl ⊢
        simp only [List.length_cons, List.length_append] at hl
        simp [noCtrl_cons, noCtrl_append, noCtrl_nil, ih.2.2.1 g (by omega), ih.2.2.2 gs (by omega)]

/-- The compact serialization of any value has no raw control characters. -/
theorem noCtrl_serVal (v : Json) : noCtrl (serVal v) = true :=
  (noCtrl_ser_bounded (serVal v).length).1 v (le_refl _)

/-- Round trip: the parser recovers every serialized value, every
serialized element-list continuation, every serialized field, and every
serialized field-list continuation, leaving the trailing input intact. -/
theorem rt_parse : ∀ fuel : Nat,
    (∀ (v : Json) (r : List Char), (serVal v).length < fuel → headNotDigit r = true →
      parseVal fuel (serVal v ++ r) = some (v, r)) ∧
    (∀ (l : List Json) (r : List Char), (serRest l).length < fuel →
      parseItems fuel (serRest l ++ ']' :: r) = some (l, r)) ∧
    (∀ (kv : List Char × Json) (r : List Char), (serField kv).length < fuel →
      headNotDigit r = true →
      parseOneField fuel (serField kv ++ r) = some (kv, r)) ∧
    (∀ (l : List (List Char × Json)) (r : List Char), (serFRest l).length < fuel →
      parseFields fuel (serFRest l ++ Char.ofNat 125 :: r) = some (l, r)) := by
  intro fuel
  induction fuel with
  | zero =>
    exact ⟨fun v r h _ => absurd h (by omega), fun l r h => absurd h (by omega),
      fun kv r h _ => absurd h (by omega), fun l r h => absurd h (by omega)⟩
  | succ f ih =>
    obtain ⟨ihV, ihI, ihF1, ihF⟩ := ih
    refine ⟨?_, ?_, ?_, ?_⟩
    · intro v r hlen hr
      cases v with
      | null =>
        show parseVal (f + 1) ('n' :: 'u' :: 'l' :: 'l' :: r) = some (Json.null, r)
        simp [parseVal, skipWs, isJsonWs, List.dropWhile_cons]
      | bool b =>
        cases b with
        | true =>
          show parseVal (f + 1) ('t' :: 'r' :: 'u' :: 'e' :: r) = some (Json.bool true, r)
          simp [parseVal, skipWs, isJsonWs, List.dropWhile_cons]
        | false =>
          show parseVal (f + 1) ('f' :: 'a' :: 'l' :: 's' :: 'e' :: r) =
            some (Json.bool false, r)
          simp [parseVal, skipWs, isJsonWs, List.dropWhile_cons]
      | num n =>
        show parseVal (f + 1) (intChars n ++ r) = some (Json.num n, r)
        by_cases hneg : n < 0
        · have e : intChars n = '-' :: natChars n.natAbs := by rw [intChars, if_pos hneg]
          rw [e, List.cons_append]
          simp only [parseVal, skipWs, List.dropWhile_cons]
          rw [if_neg (by decide : ¬ isJsonWs '-' = true)]
          simp only [List.cons_append]
          rw [if_neg (by decide), if_neg (by decide), if_neg (by decide), if_neg (by decide),
            if_neg (by decide), if_neg (by decide), if_pos (by decide)]
          rw [show ('-' :: (natChars n.natAbs ++ r)) = intChars n ++ r from by
            rw [e, List.cons_append]]
          rw [parseNum_intChars n r hr]
          rfl
        · have e : intChars n = natChars n.natAbs := by rw [intChars, if_neg hneg]
          obtain ⟨c, cs, hc, hdig, _⟩ := natChars_head n.natAbs
          rw [e, hc, List.cons_append]
          simp only [parseVal, skipWs, List.dropWhile_cons, digit_not_ws c hdig,
            digit_ne c '"' hdig (by decide), digit_ne c '[' hdig (by decide),
            digit_ne c (Char.ofNat 123) hdig (by decide), digit_ne c 'n' hdig (by decide),
            digit_ne c 't' hdig (by decide), digit_ne c 'f' hdig (by decide),
            hdig, Bool.true_or, Bool.false_eq_true, if_true, if_false, ite_false, ite_true]
          rw [show (c :: (cs ++ r)) = intChars n ++ r from by rw [e, hc, List.cons_append]]
          rw [parseNum_intChars n r hr]
          rfl
      | str s =>
        show parseVal (f + 1) (('"' :: escStr s ++ ['"']) ++ r) = some (Json.str s, r)
        rw [show ('"' :: escStr s ++ ['"']) ++ r = '"' :: (escStr s ++ '"' :: r) from by simp]
        simp [parseVal, skipWs, List.dropWhile_cons, isJsonWs, parseStrBody_escStr s r]
      | arr l =>
        cases l with
        | nil =>
          show parseVal (f + 1) (['[', ']'] ++ r) = some (Json.arr [], r)
          simp [parseVal, skipWs, List.dropWhile_cons, isJsonWs]
        | cons x xs =>
          rw [serVal_arr_cons] at hlen ⊢
          rw [show ('[' :: serVal x ++ serRest xs ++ [']']) ++ r =
            '[' :: (serVal x ++ (serRest xs ++ ']' :: r)) from by simp]
          simp only [List.length_cons, List.length_append, List.length_nil] at hlen
          obtain ⟨c0, cs0, hc0, hws0, hne0, _⟩ := serVal_cons_spec x
          have hskip : skipWs (serVal x ++ (serRest xs ++ ']' :: r)) =
              serVal x ++ (serRest xs ++ ']' :: r) := skipWs_serVal_append x _
          have hhead : ¬ (serVal x ++ (serRest xs ++ ']' :: r)).head? = some ']' := by
            rw [hc0, List.cons_append, List.head?_cons]
            intro hcontra
            exact hne0 (by injection hcontra)
          have hb1 : (serVal x).length < f := by omega
          have hb2 : (serRest xs).length < f := by omega
          simp only [parseVal, skipWs, List.dropWhile_cons]
          rw [if_neg (by decide : ¬ isJsonWs '[' = true)]
          simp only [List.cons_append]
          rw [if_neg (by decide), if_pos (by decide)]
          simp only [skipWs] at hskip
          rw [hskip, if_neg hhead,
            ihV x (serRest xs ++ ']' :: r) hb1 (headNotDigit_serRest xs ']' (by decide) r)]
          simp only [List.cons_append]
          rw [ihI xs r hb2]
      | obj l =>
        cases l with
        | nil =>
          show parseVal (f + 1) ([Char.ofNat 123, Char.ofNat 125] ++ r) =
            some (Json.obj [], r)
          simp [parseVal, skipWs, List.dropWhile_cons, isJsonWs]
        | cons kv fs =>
          obtain ⟨k, v⟩ := kv
          rw [serVal_obj_cons] at hlen ⊢
          rw [show (Char.ofNat 123 :: serField (k, v) ++ serFRest fs ++ [Char.ofNat 125]) ++ r =
            Char.ofNat 123 :: (serField (k, v) ++ (serFRest fs ++ Char.ofNat 125 :: r)) from
            by simp]
          simp only [List.length_cons, List.length_append, List.length_nil] at hlen
          have hws1 : isJsonWs '"' = false := by decide
          have hskip : skipWs (serField (k, v) ++ (serFRest fs ++ Char.ofNat 125 :: r)) =
              serField (k, v) ++ (serFRest fs ++ Char.ofNat 125 :: r) := by
            rw [serField_mk]
            simp only [List.cons_append]
            rw [skipWs_cons_of_not_ws _ _ hws1]
          have hhead : ¬ (serField (k, v) ++
              (serFRest fs ++ Char.ofNat 125 :: r)).head? = some (Char.ofNat 125) := by
            rw [serField_mk]
            simp only [List.cons_append]
            rw [List.head?_cons]
            intro hcontra
            exact absurd (by injection hcontra) (by decide : ¬ ('"' : Char) = Char.ofNat 125)
          have hb1 : (serField (k, v)).length < f := by omega
          have hb2 : (serFRest fs).length < f := by omega
          simp only [parseVal, skipWs, List.dropWhile_cons]
          rw [if_neg (by decide : ¬ isJsonWs (Char.ofNat 123) = true)]
          simp only [List.cons_append]
          rw [if_neg (by decide), if_neg (by decide), if_pos (by decide)]
          simp only [skipWs] at hskip
          rw [hskip, if_neg hhead,
            ihF1 (k, v) (serFRest fs ++ Char.ofNat 125 :: r) hb1
              (headNotDigit_serFRest fs (Char.ofNat 125) (by decide) r)]
          simp only [List.cons_append]
          rw [ihF fs r hb2]
    · intro l r hlen
      cases l with
      | nil =>
        show parseItems (f + 1) (']' :: r) = some ([], r)
        simp [parseItems, skipWs, List.dropWhile_cons, isJsonWs]
      | cons x xs =>
        rw [serRest_cons] at hlen ⊢
        rw [show (',' :: serVal x ++ serRest xs) ++ ']' :: r =
          ',' :: (serVal x ++ (serRest xs ++ ']' :: r)) from by simp]
        simp only [List.length_cons, List.length_append] at hlen
        have hb1 : (serVal x).length < f := by omega
        have hb2 : (serRest xs).length < f := by omega
        simp only [parseItems, skipWs, List.dropWhile_cons]
        rw [if_neg (by decide : ¬ isJsonWs ',' = true)]
        simp only [List.cons_append]
        rw [if_neg (by decide), if_pos (by decide)]
        rw [ihV x (serRest xs ++ ']' :: r) hb1 (headNotDigit_serRest xs ']' (by decide) r)]
        simp only [List.cons_append]
        rw [ihI xs r hb2]
    · intro kv r hlen hr
      obtain ⟨k, v⟩ := kv
      rw [serField_mk] at hlen ⊢
      rw [show ('"' :: escStr k ++ '"' :: ':' :: serVal v) ++ r =
        '"' :: (escStr k ++ '"' :: (':' :: (serVal v ++ r))) from by simp]
      simp only [List.length_cons, List.length_append] at hlen
      have hb1 : (serVal v).length < f := by omega
      have h1 := ihV v r hb1 hr
      simp [parseOneField, skipWs, isJsonWs, List.dropWhile_cons,
        parseStrBody_escStr k (':' :: (serVal v ++ r)), h1]
    · intro l r hlen
      cases l with
      | nil =>
        show parseFields (f + 1) (Char.ofNat 125 :: r) = some ([], r)
        simp [parseFields, skipWs, List.dropWhile_cons, isJsonWs]
      | cons g gs =>
        obtain ⟨k, v⟩ := g
        rw [serFRest_cons] at hlen ⊢
        rw [show (',' :: serField (k, v) ++ serFRest gs) ++ Char.ofNat 125 :: r =
          ',' :: (serField (k, v) ++ (serFRest gs ++ Char.ofNat 125 :: r)) from by simp]
        simp only [List.length_cons, List.length_append] at hlen
        have hb1 : (serField (k, v)).length < f := by omega
        have hb2 : (serFRest gs).length < f := by omega
        have hskip : skipWs (serField (k, v) ++ (serFRest gs ++ Char.ofNat 125 :: r)) =
            serField (k, v) ++ (serFRest gs ++ Char.ofNat 125 :: r) := by
          rw [serField_mk]
          simp only [List.cons_append]
          rw [skipWs_cons_of_not_ws _ _ (by decide : isJsonWs '"' = false)]
        simp only [parseFields, skipWs, List.dropWhile_cons]
        rw [if_neg (by decide : ¬ isJsonWs ',' = true)]
        simp only [List.cons_append]
        rw [if_neg (by decide), if_pos (by decide)]
        simp only [skipWs] at hskip
        rw [hskip,
          ihF1 (k, v) (serFRest gs ++ Char.ofNat 125 :: r) hb1
            (headNotDigit_serFRest gs (Char.ofNat 125) (by decide) r)]
        simp only [List.cons_append]
        rw [ihF gs r hb2]

/-- json.loads recovers every serialized JSON value exactly. -/
theorem loads_serVal (v : Json) : loads (serVal v) = some v := by
  have h := (rt_parse ((serVal v).length + 1)).1 v [] (by omega) rfl
  rw [List.append_nil] at h
  simp [loads, h]

/-- A value parse that starts at a double quote hands the rest to the
string-literal parser. -/
theorem parseVal_quote_head (f : Nat) (t : List Char) :
    parseVal (f + 1) ('"' :: t) =
      (parseStrBody t).map (fun p => (Json.str p.1, p.2)) := by
  simp only [parseVal]
  rw [skipWs_cons_of_not_ws _ _ (by decide : isJsonWs '"' = false)]
  simp only [List.cons_append, if_true]

/-- json.loads on one wrap layer yields the wrapped text as a JSON string
when the text has no raw control characters. -/
theorem loads_wrapLayer (t : List Char) (h : noCtrl t = true) :
    loads (wrapLayer t) = some (Json.str t) := by
  have hp : parseStrBody (escQB t ++ '"' :: ([] : List Char)) = some (t, []) :=
    parseStrBody_escQB t [] h
  have e : wrapLayer t = '"' :: (escQB t ++ '"' :: ([] : List Char)) := by
    simp [wrapLayer]
  simp only [loads, e, parseVal_quote_head, hp]
  simp

/-- loads of a text that starts with a double quote yields a string value
whenever it succeeds. -/
theorem loads_head_quote (l : List Char) (v : Json) (hv : loads l = some v)
    (hh : l.head? = some '"') : jsonIsStr v = true := by
  cases l with
  | nil => simp at hh
  | cons c t =>
    rw [List.head?_cons] at hh
    have hc : c = '"' := by injection hh
    subst hc
    simp only [loads, parseVal_quote_head] at hv
    cases hp : parseStrBody t with
    | none => rw [hp] at hv; simp at hv
    | some p =>
      rw [hp] at hv
      simp only [Option.map_some'] at hv
      by_cases hw : p.2.all isJsonWs = true
      · rw [if_pos hw] at hv
        have h2 : Json.str p.1 = v := by injection hv
        rw [← h2]
        rfl
      · rw [if_neg hw] at hv
        simp at hv

/-- A stripped input that parses to a non-string value is not quote
delimited, so the loop's quote-stripping step leaves it unchanged. -/
theorem stripStep_id_of_nonstr (l : List Char) (v : Json) (hv : loads l = some v)
    (hns : jsonIsStr v = false) : stripStep l = l := by
  have hq : ¬ quoteDelimited l = true := by
    intro hq
    rw [quoteDelimited, Bool.and_eq_true] at hq
    have hh : l.head? = some '"' := eq_of_beq hq.1
    have := loads_head_quote l v hv hh
    rw [hns] at this
    exact Bool.noConfusion this
  rw [stripStep, if_neg hq]

/-- One loop iteration on a state whose stripped form parses to a
non-string value returns that value pretty-printed. -/
theorem fixLoop_step_nonstr (orig cur : List Char) (k : Nat) (v : Json)
    (hv : loads (stripStep cur) = some v) (hns : jsonIsStr v = false) :
    fixLoop orig (k + 1) cur = .ok (dumps2 v) := by
  cases v with
  | str s => simp [jsonIsStr] at hns
  | null => simp [fixLoop, hv]
  | bool b => simp [fixLoop, hv]
  | num n => simp [fixLoop, hv]
  | arr l => simp [fixLoop, hv]
  | obj l => simp [fixLoop, hv]

/-- One loop iteration on a doubly encoded state: the stripped form parses
to a string whose content parses in turn. -/
theorem fixLoop_step_str (orig cur : List Char) (k : Nat) (s : List Char) (d : Json)
    (h1 : loads (stripStep cur) = some (Json.str s)) (h2 : loads s = some d) :
    fixLoop orig (k + 1) cur = .ok (dumps2 d) := by
  simp [fixLoop, h1, h2]

/-- The loop can only fail with the decode failure, never the internal
processing failure. -/
theorem fixLoop_no_processing : ∀ (k : Nat) (orig cur : List Char),
    fixLoop orig k cur ≠ .error FixError.processingFailure := by
  intro k
  induction k with
  | zero =>
    intro orig cur
    simp only [fixLoop]
    cases loads cur with
    | some d => simp
    | none => simp
  | succ k ih =>
    intro orig cur
    cases hl : loads (stripStep cur) with
    | none =>
      by_cases he : stripStep cur = orig
      · rw [he] at hl
        simp [fixLoop, hl, he]
      · simp [fixLoop, hl, he, ih orig (stripStep cur)]
    | some v =>
      cases v with
      | str s =>
        cases hl2 : loads s with
        | some d =>
          rw [fixLoop_step_str orig cur k s d hl hl2]
          simp
        | none =>
          by_cases he : stripStep cur = orig
          · rw [he] at hl
            simp [fixLoop, hl, hl2, he]
          · simp [fixLoop, hl, hl2, he, ih orig (stripStep cur)]
      | null => simp [fixLoop, hl]
      | bool b => simp [fixLoop, hl]
      | num n => simp [fixLoop, hl]
      | arr l => simp [fixLoop, hl]
      | obj l => simp [fixLoop, hl]

/-- C1: round-trip through quote-and-escape wrapping, as the code
actually behaves: fix_malformed_json recovers the original value from one
or two wrap layers whenever the value is not itself a JSON string. -/
theorem claim1_roundtrip (v : Json) (h : jsonIsStr v = false) :
    fixMalformedJson (wrapK 1 (serVal v)) = .ok (dumps2 v) ∧
    fixMalformedJson (wrapK 2 (serVal v)) = .ok (dumps2 v) := by
  constructor
  · show fixMalformedJson (wrapLayer (serVal v)) = _
    simp only [fixMalformedJson, pyStrip_wrapLayer]
    show fixLoop (wrapLayer (serVal v)) (4 + 1) (wrapLayer (serVal v)) = _
    exact fixLoop_step_nonstr _ _ 4 v
      (by rw [stripStep_wrapLayer]; exact loads_serVal v) h
  · show fixMalformedJson (wrapLayer (wrapLayer (serVal v))) = _
    simp only [fixMalformedJson, pyStrip_wrapLayer]
    show fixLoop (wrapLayer (wrapLayer (serVal v))) (4 + 1)
      (wrapLayer (wrapLayer (serVal v))) = _
    exact fixLoop_step_str _ _ 4 (serVal v) v
      (by rw [stripStep_wrapLayer]; exact loads_wrapLayer _ (noCtrl_serVal v))
      (loads_serVal v)

/-- C1 witness: both conjuncts at the concrete value null. -/
theorem claim1_roundtrip_witness :
    fixMalformedJson (wrapK 1 (serVal Json.null)) = .ok (dumps2 Json.null) ∧
    fixMalformedJson (wrapK 2 (serVal Json.null)) = .ok (dumps2 Json.null) :=
  claim1_roundtrip Json.null rfl

/-- C1 counterexample: three wrap layers over-collapse the array [1] to
the wrong value, and one wrap layer around the string value "hi" raises a
decode error, so the 1-to-4-layer round trip of the claim fails. -/
theorem claim1_cex :
    fixMalformedJson (wrapK 3 (serVal (Json.arr [Json.num 1]))) ≠
      Except.ok (dumps2 (Json.arr [Json.num 1])) ∧
    fixMalformedJson (wrapK 1 (serVal (Json.str ['h', 'i']))) ≠
      Except.ok (dumps2 (Json.str ['h', 'i'])) := by
  exact ⟨by decide, by decide⟩

/-- C2: dequoting already-valid JSON, as the code actually behaves: when
the stripped input parses to a non-string value v, fix_malformed_json
returns the 2-space re-serialization of the same v. -/
theorem claim2_idempotence (s : List Char) (v : Json)
    (hv : loads (pyStrip s) = some v) (hns : jsonIsStr v = false) :
    fixMalformedJson s = .ok (dumps2 v) := by
  have hss : stripStep (pyStrip s) = pyStrip s := stripStep_id_of_nonstr _ v hv hns
  simp only [fixMalformedJson]
  show fixLoop (pyStrip s) (4 + 1) (pyStrip s) = _
  exact fixLoop_step_nonstr _ _ 4 v (by rw [hss]; exact hv) hns

/-- C2 witness: the empty-array document is returned re-serialized. -/
theorem claim2_idempotence_witness :
    loads (pyStrip ['[', ']']) = some (Json.arr []) ∧
    fixMalformedJson ['[', ']'] = .ok (dumps2 (Json.arr [])) :=
  ⟨rfl, claim2_idempotence ['[', ']'] (Json.arr []) rfl rfl⟩

/-- C2 counterexample: the input is already valid JSON denoting the string
"hi", yet fix_malformed_json strips its quotes first and ends in a decode
failure instead of returning normally. -/
theorem claim2_cex :
    loads (pyStrip ['"', 'h', 'i', '"']) = some (Json.str ['h', 'i']) ∧
    fixMalformedJson ['"', 'h', 'i', '"'] = .error FixError.decodeFailure :=
  ⟨rfl, rfl⟩

/-- C3: error behaviour, as the code actually behaves: the internal
processing failure is unreachable (every failure is the decode failure),
and an input whose stripped form parses directly to a non-string value
always returns normally. -/
theorem claim3_errors :
    (∀ s : List Char, fixMalformedJson s ≠ .error FixError.processingFailure) ∧
    (∀ (s : List Char) (v : Json), loads (pyStrip s) = some v → jsonIsStr v = false →
      ∃ out, fixMalformedJson s = .ok out) := by
  constructor
  · intro s
    simp only [fixMalformedJson]
    exact fixLoop_no_processing 5 _ _
  · intro s v hv hns
    refine ⟨dumps2 v, ?_⟩
    have hss : stripStep (pyStrip s) = pyStrip s := stripStep_id_of_nonstr _ v hv hns
    simp only [fixMalformedJson]
    show fixLoop (pyStrip s) (4 + 1) (pyStrip s) = _
    exact fixLoop_step_nonstr _ _ 4 v (by rw [hss]; exact hv) hns

/-- C3 witness: both conjuncts at the concrete one-digit document. -/
theorem claim3_errors_witness :
    fixMalformedJson ['1'] ≠ .error FixError.processingFailure ∧
    ∃ out, fixMalformedJson ['1'] = Except.ok out :=
  ⟨claim3_errors.1 ['1'], claim3_errors.2 ['1'] (Json.num 1) rfl rfl⟩

/-- C3 counterexample: the input parses directly as the JSON string "ab",
so by the claim the function should return normally, yet it raises the
decode failure. -/
theorem claim3_cex :
    loads (pyStrip ['"', 'a', 'b', '"']) = some (Json.str ['a', 'b']) ∧
    fixMalformedJson ['"', 'a', 'b', '"'] = .error FixError.decodeFailure :=
  ⟨rfl, rfl⟩
